import Mathlib

/-!
The xgb2code compiler: tree assembly, ensemble loading and code emission.

A shallow embedding of the package gen (parse.go, generate.go).

Conventions of the embedding.

* A Go call either returns, stops with a run-time panic, or (for the
  recursion over a pointer graph, which is run with a step budget) uses up
  its budget.  These are the three constructors of `Run`.
* A Go pair `(value, error)` is a Lean pair whose second component is an
  `Option error`; `none` is the nil error.
* Go `int` and `int64` are 64 bit; they are `Int` here and the one place
  where the code can leave the range (`bestIteration+1`) wraps explicitly.
* `float64` and `float32` values are only copied by this code, they are
  carried as their bit patterns.
* `nodes := make([]node, n)` is an arena; a `*node` into it is the arena's
  contents together with an index (`nodePtr`), and the child pointers stored
  in a node of the arena are indices into the same arena.
* The renderer (type renderer and its three execute methods), strconv.Quote,
  go/format.Source and the capacity chosen by append are not part of the two
  source files; they are parameters.
* What an emitted text computes depends on the templates of the renderer,
  which are not among the source files either.  It is a parameter as well,
  and the rules the spec states for the templates (`nodeRule`, `wrapperRule`)
  are hypotheses; a small stack machine with its own renderer shows that they
  can be met.
-/

namespace gen

/-! ## Outcomes and errors -/

/-- Outcome of running a Go call. -/
inductive Run (α : Type) where
  | ret (a : α) : Run α
  | panic : Run α
  | timeout : Run α
  deriving DecidableEq, Repr

/-- Go error values that occur in the package: the two errors of
strconv.ParseInt, the wrapping done by fmt.Errorf with the verb %w, and any
other error (those of the renderer and of format.Source). -/
inductive error where
  | syntaxError (fn num : String) : error
  | rangeError (fn num : String) : error
  | wrap (msg : String) (inner : error) : error
  | other (msg : String) : error
  deriving DecidableEq, Repr

/-- The method Error() of an error value; quote stands for strconv.Quote. -/
def error.Error (quote : String → String) : error → String
  | .syntaxError fn num => "strconv." ++ fn ++ ": parsing " ++ quote num ++ ": invalid syntax"
  | .rangeError fn num => "strconv." ++ fn ++ ": parsing " ++ quote num ++ ": value out of range"
  | .wrap msg inner => msg ++ inner.Error quote
  | .other msg => msg

/-! ## strconv.ParseInt(s, 10, 64), behind json.Number.Int64 -/

/-- The digit loop of strconv.ParseUint for base 10 and bitSize 64, over the
remaining characters cs with accumulator n.  The result is the value
returned together with the kind of failure: `some false` is a syntax error,
`some true` a range error. -/
def parseUintLoop : List Char → Nat → Nat × Option Bool
  | [], n => (n, none)
  | c :: cs, n =>
    if 48 ≤ c.toNat ∧ c.toNat ≤ 57 then
      let d := c.toNat - 48
      if n ≥ (2 ^ 64 - 1) / 10 + 1 then (2 ^ 64 - 1, some true)
      else
        let n1 := n * 10 + d
        if n1 > 2 ^ 64 - 1 then (2 ^ 64 - 1, some true)
        else parseUintLoop cs n1
    else (0, some false)

/-- The function strconv.ParseUint(s, 10, 64) on the characters of s. -/
def ParseUint (s : List Char) : Nat × Option Bool :=
  if s = [] then (0, some false) else parseUintLoop s 0

/-- The function strconv.ParseInt(s, 10, 64). -/
def ParseInt (s : String) : Int × Option error :=
  match s.data with
  | [] => (0, some (.syntaxError "ParseInt" s))
  | c :: cs =>
    let neg := c = '-'
    let body := if c = '+' ∨ c = '-' then cs else c :: cs
    match ParseUint body with
    | (_, some false) => (0, some (.syntaxError "ParseInt" s))
    | (un, _) =>
      if ¬ neg ∧ un ≥ 2 ^ 63 then (2 ^ 63 - 1, some (.rangeError "ParseInt" s))
      else if neg ∧ un > 2 ^ 63 then (-(2 ^ 63), some (.rangeError "ParseInt" s))
      else (if neg then -(un : Int) else (un : Int), none)

/-- The method Int64 of json.Number. -/
def Int64 (n : String) : Int × Option error := ParseInt n

/-! ## Data model (parse.go) -/

/-- A float64, carried as its bit pattern. -/
structure float64 where
  bits : Nat
  deriving DecidableEq, Repr

/-- A float32, carried as its bit pattern. -/
structure float32 where
  bits : Nat
  deriving DecidableEq, Repr

/-- The struct xgbTree; NumNodes is the json.Number of tree_param. -/
structure xgbTree where
  DefaultLeft : List Int
  LeftChildren : List Int
  RightChildren : List Int
  SplitConditions : List float64
  SplitIndices : List Int
  NumNodes : String
  deriving DecidableEq, Repr

/-- The fields of xgbModel that readTrees reads. -/
structure xgbModel where
  BestIteration : String
  TreeInfo : List Int
  Trees : List xgbTree
  deriving DecidableEq, Repr

/-- The struct nodeData. -/
structure nodeData where
  Class : Int
  DefaultLeft : Int
  ID : Int
  SplitCondition : float64
  SplitIndex : Int
  deriving DecidableEq, Repr

/-- The struct node; left and right point into the arena the node lives in
(`none` is nil). -/
structure node where
  left : Option Nat
  right : Option Nat
  data : nodeData
  deriving DecidableEq, Repr

/-- A non-nil `*node`: the arena and the index of the node pointed to. -/
structure nodePtr where
  mem : List node
  idx : Nat
  deriving DecidableEq, Repr

/-- The zero value of node, as make([]node, n) fills the arena. -/
def zeroNode : node :=
  { left := none, right := none,
    data := { Class := 0, DefaultLeft := 0, ID := 0, SplitCondition := ⟨0⟩, SplitIndex := 0 } }

/-- Indexing a Go slice with an int: `none` stands for the index-out-of-range
panic. -/
def index {α : Type} (l : List α) (i : Int) : Option α :=
  if 0 ≤ i then l[i.toNat]? else none

/-! ## parseTreeInfo -/

/-- One iteration of the loop of parseTreeInfo at index i over the arena:
the node data is filled from the arrays, both child entries are read, and
unless the left entry is -1 the two child pointers are set to
`&nodes[left]` and `&nodes[right]`. -/
def parseTreeInfoBody (xt : xgbTree) (i : Nat) (nodes : List node) : Run (List node) :=
  match nodes[i]?, xt.DefaultLeft[i]?, xt.SplitConditions[i]?, xt.SplitIndices[i]? with
  | some nd, some dl, some sc, some si =>
    let nd1 : node :=
      { nd with data := { Class := 0, DefaultLeft := dl, ID := (i : Int),
                          SplitCondition := sc, SplitIndex := si } }
    match xt.LeftChildren[i]?, xt.RightChildren[i]? with
    | some left, some right =>
      if left = -1 then .ret (nodes.set i nd1)
      else
        match index nodes left with
        | none => .panic
        | some _ =>
          match index nodes right with
          | none => .panic
          | some _ =>
            .ret (nodes.set i { nd1 with left := some left.toNat, right := some right.toNat })
    | _, _ => .panic
  | _, _, _, _ => .panic

/-- The loop `for i := 0; i < int(numNodes); i++` of parseTreeInfo, with
todo iterations left to run from index i. -/
def parseTreeInfoLoop (xt : xgbTree) : (todo : Nat) → (i : Nat) → List node → Run (List node)
  | 0, _, nodes => .ret nodes
  | todo + 1, i, nodes =>
    match parseTreeInfoBody xt i nodes with
    | .ret nodes1 => parseTreeInfoLoop xt todo (i + 1) nodes1
    | .panic => .panic
    | .timeout => .timeout

/-- The function parseTreeInfo. -/
def parseTreeInfo (xt : xgbTree) : Run (Option nodePtr × Option error) :=
  match Int64 xt.NumNodes with
  | (_, some err) => .ret (none, some (.wrap "error parsing num_nodes as an integer: " err))
  | (numNodes, none) =>
    if numNodes < 0 then .panic
    else
      match parseTreeInfoLoop xt numNodes.toNat 0 (List.replicate numNodes.toNat zeroNode) with
      | .ret nodes => if 0 < nodes.length then .ret (some ⟨nodes, 0⟩, none) else .panic
      | .panic => .panic
      | .timeout => .timeout

/-! ## readTrees -/

/-- A `[]*node` under construction: the elements at positions below its
length, and its capacity.  The positions of the backing array between the
length and the capacity hold nil. -/
structure treeSlice where
  elems : List (Option nodePtr)
  cap : Nat
  deriving DecidableEq, Repr

/-- The builtin append of one element; growCap old need is the capacity the
run time picks when the backing array is full (it is at least need). -/
def appendTree (growCap : Nat → Nat → Nat) (s : treeSlice) (t : Option nodePtr) : treeSlice :=
  if s.elems.length < s.cap then { elems := s.elems ++ [t], cap := s.cap }
  else { elems := s.elems ++ [t],
         cap := max (s.elems.length + 1) (growCap s.cap (s.elems.length + 1)) }

/-- The slice expression `s[:hi]`: it panics unless 0 <= hi <= cap(s), and
positions between the length and hi show the nil of the backing array. -/
def resliceTo (s : treeSlice) (hi : Int) : Run (List (Option nodePtr)) :=
  if 0 ≤ hi ∧ hi ≤ (s.cap : Int) then
    .ret ((s.elems ++ List.replicate (s.cap - s.elems.length) none).take hi.toNat)
  else .panic

/-- Two's complement wrap-around of an int64 result. -/
def wrapInt64 (v : Int) : Int := (v + 2 ^ 63) % 2 ^ 64 - 2 ^ 63

/-- The assignment `treeInfo.data.Class = c` through the pointer p. -/
def setClass (p : nodePtr) (c : Int) : Option nodePtr :=
  match p.mem[p.idx]? with
  | none => none
  | some nd => some { p with mem := p.mem.set p.idx { nd with data := { nd.data with Class := c } } }

/-- The loop of readTrees over the remaining raw trees rest, the first of
which has position i; treeInfos is the tree_info array of the model.
`Except.error err` is the early `return nil, err`. -/
def readTreesLoop (growCap : Nat → Nat → Nat) (treeInfos : List Int) :
    List xgbTree → Nat → treeSlice → Run (Except error treeSlice)
  | [], _, trees => .ret (.ok trees)
  | t :: rest, i, trees =>
    match parseTreeInfo t with
    | .ret (_, some err) => .ret (.error err)
    | .ret (none, none) => .panic
    | .ret (some treeInfo, none) =>
      match treeInfos[i]? with
      | none => .panic
      | some c =>
        match setClass treeInfo c with
        | none => .panic
        | some treeInfo1 =>
          readTreesLoop growCap treeInfos rest (i + 1)
            (appendTree growCap trees (some treeInfo1))
    | .panic => .panic
    | .timeout => .timeout

/-- The function readTrees. -/
def readTrees (growCap : Nat → Nat → Nat) (x : xgbModel) :
    Run (List (Option nodePtr) × Option error) :=
  match readTreesLoop growCap x.TreeInfo x.Trees 0 { elems := [], cap := 0 } with
  | .ret (.error err) => .ret ([], some err)
  | .ret (.ok trees) =>
    if x.BestIteration = "" then .ret (trees.elems, none)
    else
      match Int64 x.BestIteration with
      | (_, some err) => .ret ([], some (.wrap "error parsing best_iteration as int: " err))
      | (bestIteration, none) =>
        match resliceTo trees (wrapInt64 (bestIteration + 1)) with
        | .ret kept => .ret (kept, none)
        | .panic => .panic
        | .timeout => .timeout
  | .panic => .panic
  | .timeout => .timeout

/-! ## generate.go -/

/-- The struct treeFunction. -/
structure treeFunction where
  Code : String
  Name : String
  Class : Int
  deriving DecidableEq, Repr

/-- The three methods of the renderer that generate.go calls; each returns a
Go pair (text, error). -/
structure renderer where
  executeTerminalNode : nodePtr → Int → String × Option error
  executeDecisionNode : nodePtr → Int → String → String → String × Option error
  executeRoot : String → String → float32 → Int → List treeFunction → String × Option error

/-- The function codegenTree, run with a budget of fuel nested calls (a
pointer graph with a cycle makes the Go recursion endless). -/
def codegenTree (r : renderer) : (fuel : Nat) → (tree : Option nodePtr) → (level : Int) →
    Run (String × Option error)
  | 0, _, _ => .timeout
  | _ + 1, none, _ => .panic
  | fuel + 1, some tree, level =>
    match tree.mem[tree.idx]? with
    | none => .panic
    | some nd =>
      if nd.left = none ∨ nd.right = none then .ret (r.executeTerminalNode tree level)
      else
        match codegenTree r fuel (nd.left.map (fun j => { tree with idx := j })) (level + 1) with
        | .ret (_, some err) => .ret ("", some err)
        | .ret (left, none) =>
          match codegenTree r fuel (nd.right.map (fun j => { tree with idx := j })) (level + 1) with
          | .ret (_, some err) => .ret ("", some err)
          | .ret (right, none) => .ret (r.executeDecisionNode tree level left right)
          | .panic => .panic
          | .timeout => .timeout
        | .panic => .panic
        | .timeout => .timeout

/-- The loop of generateSource over the remaining trees, the first of which
has position i.  `Except.error err` is the early `return "", err`. -/
def generateSourceLoop (r : renderer) (fuel : Nat) (funcName : String) :
    List (Option nodePtr) → Nat → List treeFunction → Run (Except error (List treeFunction))
  | [], _, treeFunctions => .ret (.ok treeFunctions)
  | t :: rest, i, treeFunctions =>
    match codegenTree r fuel t 0 with
    | .ret (_, some err) => .ret (.error err)
    | .ret (code, none) =>
      match t with
      | none => .panic
      | some p =>
        match p.mem[p.idx]? with
        | none => .panic
        | some nd =>
          generateSourceLoop r fuel funcName rest (i + 1)
            (treeFunctions ++
              [{ Code := code, Name := "tree" ++ funcName ++ "_" ++ Nat.repr i,
                 Class := nd.data.Class }])
    | .panic => .panic
    | .timeout => .timeout

/-- The function generateSource; formatSource stands for go/format.Source. -/
def generateSource (formatSource : String → String × Option error) (fuel : Nat)
    (packageName funcName : String) (baseScore : float32) (numClasses : Int)
    (trees : List (Option nodePtr)) (r : renderer) : Run (String × Option error) :=
  match generateSourceLoop r fuel funcName trees 0 [] with
  | .ret (.error err) => .ret ("", some err)
  | .ret (.ok treeFunctions) =>
    match r.executeRoot packageName funcName baseScore numClasses treeFunctions with
    | (_, some err) => .ret ("", some err)
    | (code, none) =>
      match formatSource code with
      | (_, some err) => .ret ("", some (.wrap "error formatting code: " err))
      | (_, none) => .ret (code, none)
  | .panic => .panic
  | .timeout => .timeout

/-! ## Sample inputs -/

/-- A one-node tree: a single leaf. -/
def leafTree : xgbTree :=
  { DefaultLeft := [0], LeftChildren := [-1], RightChildren := [-1],
    SplitConditions := [⟨7⟩], SplitIndices := [0], NumNodes := "1" }

/-- A three-node tree: a root with two leaves. -/
def stumpTree : xgbTree :=
  { DefaultLeft := [1, 0, 0], LeftChildren := [1, -1, -1], RightChildren := [2, -1, -1],
    SplitConditions := [⟨10⟩, ⟨1⟩, ⟨2⟩], SplitIndices := [2, 0, 0], NumNodes := "3" }

/-- Capacity growth by doubling, as the gc run time does for small slices. -/
def doubleCap (old need : Nat) : Nat := if need > old + old then need else old + old

/-! ## Specification-side descriptions -/

/-- Node i of a raw tree can be assembled into an arena of n nodes: the five
arrays reach index i, and the left entry is -1 or both child entries lie in
0..n-1. -/
def nodeOK (xt : xgbTree) (n i : Nat) : Prop :=
  i < xt.DefaultLeft.length ∧ i < xt.SplitConditions.length ∧ i < xt.SplitIndices.length ∧
  i < xt.LeftChildren.length ∧ i < xt.RightChildren.length ∧
  (xt.LeftChildren.getD i 0 = -1 ∨
    (0 ≤ xt.LeftChildren.getD i 0 ∧ xt.LeftChildren.getD i 0 < (n : Int) ∧
     0 ≤ xt.RightChildren.getD i 0 ∧ xt.RightChildren.getD i 0 < (n : Int)))

instance (xt : xgbTree) (n i : Nat) : Decidable (nodeOK xt n i) := by
  unfold nodeOK; infer_instance

/-- The node that the flat arrays describe at index i. -/
def mirrorNode (xt : xgbTree) (i : Nat) : node :=
  { left := if xt.LeftChildren.getD i 0 = -1 then none
            else some (xt.LeftChildren.getD i 0).toNat,
    right := if xt.LeftChildren.getD i 0 = -1 then none
             else some (xt.RightChildren.getD i 0).toNat,
    data := { Class := 0, DefaultLeft := xt.DefaultLeft.getD i 0, ID := (i : Int),
              SplitCondition := xt.SplitConditions.getD i ⟨0⟩,
              SplitIndex := xt.SplitIndices.getD i 0 } }

/-- A one-node tree whose node has no left child but names node 0 as its
right child. -/
def rightOnlyTree : xgbTree :=
  { DefaultLeft := [0], LeftChildren := [-1], RightChildren := [0],
    SplitConditions := [⟨7⟩], SplitIndices := [0], NumNodes := "1" }

/-- A one-node tree whose node names node 0 as its left child and has the
sentinel -1 as right child. -/
def leftOnlyTree : xgbTree :=
  { DefaultLeft := [0], LeftChildren := [0], RightChildren := [-1],
    SplitConditions := [⟨7⟩], SplitIndices := [0], NumNodes := "1" }

/-- A tree that declares one node and carries arrays of length two. -/
def longArraysTree : xgbTree :=
  { DefaultLeft := [0, 0], LeftChildren := [-1, -1], RightChildren := [-1, -1],
    SplitConditions := [⟨7⟩, ⟨8⟩], SplitIndices := [0, 0], NumNodes := "1" }

/-- A tree that declares two nodes and carries arrays of length one. -/
def shortArraysTree : xgbTree :=
  { DefaultLeft := [0], LeftChildren := [-1], RightChildren := [-1],
    SplitConditions := [⟨7⟩], SplitIndices := [0], NumNodes := "2" }

/-- A one-node tree whose child entries are 5, outside 0..0. -/
def outOfRangeTree : xgbTree :=
  { DefaultLeft := [0], LeftChildren := [5], RightChildren := [5],
    SplitConditions := [⟨7⟩], SplitIndices := [0], NumNodes := "1" }

/-- A one-node tree whose node is its own left and right child. -/
def selfLoopTree : xgbTree :=
  { DefaultLeft := [0], LeftChildren := [0], RightChildren := [0],
    SplitConditions := [⟨7⟩], SplitIndices := [0], NumNodes := "1" }

/-- The raw tree cut down to the first n entries of each of its arrays. -/
def truncateArrays (xt : xgbTree) (n : Nat) : xgbTree :=
  { xt with DefaultLeft := xt.DefaultLeft.take n, LeftChildren := xt.LeftChildren.take n,
            RightChildren := xt.RightChildren.take n,
            SplitConditions := xt.SplitConditions.take n,
            SplitIndices := xt.SplitIndices.take n }

/-- The pointer to a single-leaf arena whose root has class c. -/
def leafPtr (c : Int) : Option nodePtr :=
  some ⟨[{ left := none, right := none,
           data := { Class := c, DefaultLeft := 0, ID := 0, SplitCondition := ⟨7⟩,
                     SplitIndex := 0 } }], 0⟩

/-- A model of three single-leaf trees with best_iteration 1. -/
def sampleModel : xgbModel :=
  { BestIteration := "1", TreeInfo := [0, 1, 2], Trees := [leafTree, leafTree, leafTree] }

/-- The model of three single-leaf trees without a best_iteration. -/
def sampleModelAll : xgbModel :=
  { BestIteration := "", TreeInfo := [0, 1, 2], Trees := [leafTree, leafTree, leafTree] }

/-- A model without best_iteration whose two trees both assemble and whose
tree_info has one entry only. -/
def shortTreeInfoModel : xgbModel :=
  { BestIteration := "", TreeInfo := [0], Trees := [leafTree, leafTree] }

/-- A renderer that never fails: fixed texts for leaves and for the wrapper,
and the two branches side by side for a decision node. -/
def plainRenderer : renderer :=
  { executeTerminalNode := fun _ _ => ("leaf", none),
    executeDecisionNode := fun _ _ left right => ("if(" ++ left ++ "," ++ right ++ ")", none),
    executeRoot := fun _ _ _ _ _ => ("package p", none) }

/-- A syntax check that accepts every text and returns it as formatted. -/
def formatAccept (code : String) : String × Option error := (code, none)

/-- A syntax check that rejects every text. -/
def formatReject (_ : String) : String × Option error := ("", some (.other "syntax error"))

/-- The identifier of the fragment at position i, the text of
`fmt.Sprintf("tree%s_%d", funcName, i)` in generateSource. -/
def fragmentName (funcName : String) (i : Nat) : String :=
  "tree" ++ funcName ++ "_" ++ Nat.repr i

/-- The number that a list of decimal digit characters spells. -/
def decimalValue (cs : List Char) : Nat :=
  cs.foldl (fun acc c => acc * 10 + (c.toNat - 48)) 0

/-- A syntax check that accepts every text and returns a rewritten text as
the formatted one. -/
def formatRewrite (code : String) : String × Option error := ("// formatted " ++ code, none)

/-- A single-leaf tree whose num_nodes is missing (the empty json.Number). -/
def noCountTree : xgbTree := { leafTree with NumNodes := "" }

/-- A model with one good tree whose best_iteration is not an integer. -/
def badMarkerModel : xgbModel :=
  { BestIteration := "1.5", TreeInfo := [0], Trees := [leafTree] }

/-- A model whose best_iteration is not an integer and whose only tree has no
num_nodes. -/
def badTreeBadMarkerModel : xgbModel :=
  { BestIteration := "1.5", TreeInfo := [0], Trees := [noCountTree] }

/-- A model of three single-leaf trees with best_iteration 3. -/
def sampleModelOver : xgbModel :=
  { BestIteration := "3", TreeInfo := [0, 1, 2], Trees := [leafTree, leafTree, leafTree] }

/-- The nodes reachable from node i of the arena form a finite tree of fewer
than d levels: following child pointers from i, a node that codegenTree
renders as a leaf (left or right pointer nil) is met on every path within d
steps. -/
def finiteWithin (mem : List node) : Nat → Nat → Bool
  | 0, _ => false
  | d + 1, i =>
    match mem[i]? with
    | none => false
    | some nd =>
      match nd.left, nd.right with
      | some a, some b => finiteWithin mem d a && finiteWithin mem d b
      | _, _ => true

/-- The root of the three-node tree, as parseTreeInfo builds it. -/
def stumpRoot : node :=
  { left := some 1, right := some 2,
    data := { Class := 0, DefaultLeft := 1, ID := 0, SplitCondition := ⟨10⟩, SplitIndex := 2 } }

/-- The arena of the three-node tree, as parseTreeInfo builds it. -/
def stumpMem : List node :=
  [stumpRoot,
   { left := none, right := none,
     data := { Class := 0, DefaultLeft := 0, ID := 1, SplitCondition := ⟨1⟩, SplitIndex := 0 } },
   { left := none, right := none,
     data := { Class := 0, DefaultLeft := 0, ID := 2, SplitCondition := ⟨2⟩, SplitIndex := 0 } }]

/-- A renderer that never fails and shows which node a text comes from: a
leaf is rendered by its index in the arena, a decision node by its index and
its two branches in the order left, right. -/
def labelRenderer : renderer :=
  { executeTerminalNode := fun p _ => ("leaf" ++ Nat.repr p.idx, none),
    executeDecisionNode := fun p _ left right =>
      ("node" ++ Nat.repr p.idx ++ "(" ++ left ++ "," ++ right ++ ")", none),
    executeRoot := fun _ _ _ _ _ => ("package p", none) }

/-! ## Meaning of the emitted text -/

/-- The routing of an input at a decision node, in the words of the spec:
left when the feature at SplitIndex is present and less than SplitCondition,
or is missing while DefaultLeft is set; right otherwise.  A feature vector
gives the value at an index, or `none` when it is missing; less stands for
the comparison of two float64 values. -/
def goesLeft (less : float64 → float64 → Bool) (d : nodeData) (fv : Int → Option float64) :
    Bool :=
  match fv d.SplitIndex with
  | some v => less v d.SplitCondition
  | none => d.DefaultLeft != 0

/-- The leaf that an input reaches from node i of the arena, following
goesLeft at every node that has both children; a node without children is a
leaf.  The walk is run with a budget of fuel steps. -/
def leafReached (less : float64 → float64 → Bool) (fv : Int → Option float64)
    (mem : List node) : Nat → Nat → Option node
  | 0, _ => none
  | fuel + 1, i =>
    match mem[i]? with
    | none => none
    | some nd =>
      match nd.left, nd.right with
      | none, none => some nd
      | some a, some b =>
        if goesLeft less nd.data fv then leafReached less fv mem fuel a
        else leafReached less fv mem fuel b
      | _, _ => none

/-- Modelled from the spec: the per-node rule of the Code Emitter (section
4.3), which the templates behind executeTerminalNode and executeDecisionNode
have to meet; the templates and the language of the emitted text are not
among the source files.  `sem text fv` is the value the emitted text computes
for the feature vector fv.  The text of a leaf evaluates to the leaf's
SplitCondition; the text of a decision node evaluates to the value of its
left branch when the input goes left at this node and to the value of its
right branch otherwise. -/
structure nodeRule (r : renderer) (less : float64 → float64 → Bool)
    (sem : String → (Int → Option float64) → Option float64) : Prop where
  leaf : ∀ (p : nodePtr) (level : Int) (nd : node) (code : String),
    p.mem[p.idx]? = some nd → r.executeTerminalNode p level = (code, none) →
    ∀ fv, sem code fv = some nd.data.SplitCondition
  decision : ∀ (p : nodePtr) (level : Int) (nd : node) (left right code : String),
    p.mem[p.idx]? = some nd → r.executeDecisionNode p level left right = (code, none) →
    ∀ fv vl vr, sem left fv = some vl → sem right fv = some vr →
      sem code fv = some (if goesLeft less nd.data fv then vl else vr)

/-- Modelled from the spec: the arithmetic of the wrapper (section 4.3,
aggregation rule) on a score slot: the empty slot, adding the contribution of
one tree into a slot, and adding the base score to a slot. -/
structure scoreOps (S : Type) where
  zero : S
  add : S → float64 → S
  addBase : S → float32 → S

/-- The score of class c in the words of the spec: the contributions of the
trees whose class is c, added in order into an empty slot, and the base score
added after them.  A contribution is a pair of the class of a tree and the
value of its fragment. -/
def slotScore {S : Type} (ops : scoreOps S) (contribs : List (Int × float64))
    (base : float32) (c : Int) : S :=
  ops.addBase (((contribs.filter (fun x => x.1 = c)).map (fun x => x.2)).foldl ops.add ops.zero)
    base

/-- The score vector in the words of the spec: one slot for every class in
0..numClasses-1. -/
def scoreVector {S : Type} (ops : scoreOps S) (contribs : List (Int × float64))
    (base : float32) (numClasses : Int) : List S :=
  (List.range numClasses.toNat).map (fun (c : Nat) => slotScore ops contribs base (c : Int))

/-- Modelled from the spec: the aggregation rule of the Code Emitter (section
4.3), which the template behind executeRoot has to meet; the template is not
among the source files.  `semRoot text fv` is the score vector the emitted
function computes for the feature vector fv.  When every fragment handed to
executeRoot evaluates, the emitted function returns the score vector of the
contributions (Class of the fragment, value of the fragment), the base score
and the number of classes. -/
structure wrapperRule {S : Type} (r : renderer) (ops : scoreOps S)
    (sem : String → (Int → Option float64) → Option float64)
    (semRoot : String → (Int → Option float64) → Option (List S)) : Prop where
  root : ∀ (packageName funcName : String) (baseScore : float32) (numClasses : Int)
    (tfs : List treeFunction) (code : String),
    r.executeRoot packageName funcName baseScore numClasses tfs = (code, none) →
    ∀ (fv : Int → Option float64) (vals : List float64),
      List.Forall₂ (fun tf v => sem tf.Code fv = some v) tfs vals →
      semRoot code fv
        = some (scoreVector ops ((tfs.map (fun tf => tf.Class)).zip vals) baseScore numClasses)

/-- The expression `t.data.Class` for a tree of the list; `none` when t is
nil. -/
def rootClass (t : Option nodePtr) : Option Int :=
  match t with
  | none => none
  | some p => (p.mem[p.idx]?).map (fun nd => nd.data.Class)

/-! ## A sample emitter: texts for a small stack machine -/

/-- State of the stack machine that runs a fragment text: the number being
read, the threshold and feature registers, and the value stack. -/
structure vmState where
  num : Nat
  thr : Option Nat
  feat : Option Int
  stack : List float64
  deriving DecidableEq, Repr

/-- The state in which a text starts. -/
def vmInit : vmState := { num := 0, thr := none, feat := none, stack := [] }

/-- One character of a fragment text: a digit extends the number; L pushes a
leaf value; T and F (G for a negative index) load the threshold and the
feature index; Y and N replace the two topmost values (left below right) by
the branch the input takes, Y when a missing feature goes left. -/
def vmStep (less : float64 → float64 → Bool) (fv : Int → Option float64) (st : vmState)
    (c : Char) : Option vmState :=
  if 48 ≤ c.toNat ∧ c.toNat ≤ 57 then some { st with num := st.num * 10 + (c.toNat - 48) }
  else if c = 'L' then some { st with num := 0, stack := ⟨st.num⟩ :: st.stack }
  else if c = 'T' then some { st with num := 0, thr := some st.num }
  else if c = 'F' then some { st with num := 0, feat := some (st.num : Int) }
  else if c = 'G' then some { st with num := 0, feat := some (-(st.num : Int)) }
  else if c = 'Y' ∨ c = 'N' then
    match st.thr, st.feat, st.stack with
    | some t, some f, vr :: vl :: rest =>
      let left : Bool :=
        match fv f with
        | some v => less v ⟨t⟩
        | none => decide (c = 'Y')
      some { num := 0, thr := none, feat := none, stack := (if left then vl else vr) :: rest }
    | _, _, _ => none
  else none

/-- Running the characters of a fragment text. -/
def vmRun (less : float64 → float64 → Bool) (fv : Int → Option float64) :
    List Char → vmState → Option vmState
  | [], st => some st
  | c :: cs, st =>
    match vmStep less fv st c with
    | none => none
    | some st1 => vmRun less fv cs st1

/-- The value a fragment text computes: the single value left on the stack
by a run that ends with empty registers. -/
def vmEval (less : float64 → float64 → Bool) (text : String) (fv : Int → Option float64) :
    Option float64 :=
  match vmRun less fv text.data vmInit with
  | some { num := 0, thr := none, feat := none, stack := [v] } => some v
  | _ => none

/-- State of the machine that runs a wrapper text: the state of the fragment
being run, the contributions collected so far, the base score and the number
of classes once read. -/
structure wrapState where
  frag : vmState
  contribs : List (Int × float64)
  base : Option float32
  count : Option Nat
  deriving DecidableEq, Repr

/-- One character of a wrapper text: a character of a fragment is run on the
fragment state; C (K for a negative class) closes a fragment and records its
value under the class just read; B records the base score and R the number
of classes. -/
def wrapStep (less : float64 → float64 → Bool) (fv : Int → Option float64) (ws : wrapState)
    (c : Char) : Option wrapState :=
  match vmStep less fv ws.frag c with
  | some f => some { ws with frag := f }
  | none =>
    if c = 'C' ∨ c = 'K' then
      match ws.frag, ws.base, ws.count with
      | { num := n, thr := none, feat := none, stack := [v] }, none, none =>
        some { ws with frag := vmInit,
                       contribs := ws.contribs ++ [(if c = 'K' then -(n : Int) else (n : Int), v)] }
      | _, _, _ => none
    else if c = 'B' then
      match ws.frag, ws.base, ws.count with
      | { num := n, thr := none, feat := none, stack := [] }, none, none =>
        some { ws with frag := vmInit, base := some ⟨n⟩ }
      | _, _, _ => none
    else if c = 'R' then
      match ws.frag, ws.base, ws.count with
      | { num := n, thr := none, feat := none, stack := [] }, some _, none =>
        some { ws with frag := vmInit, count := some n }
      | _, _, _ => none
    else none

/-- Running the characters of a wrapper text. -/
def wrapRun (less : float64 → float64 → Bool) (fv : Int → Option float64) :
    List Char → wrapState → Option wrapState
  | [], ws => some ws
  | c :: cs, ws =>
    match wrapStep less fv ws c with
    | none => none
    | some ws1 => wrapRun less fv cs ws1

/-- The score vector a wrapper text computes. -/
def wrapEval {S : Type} (ops : scoreOps S) (less : float64 → float64 → Bool) (text : String)
    (fv : Int → Option float64) : Option (List S) :=
  match wrapRun less fv text.data { frag := vmInit, contribs := [], base := none, count := none } with
  | some { frag := { num := 0, thr := none, feat := none, stack := [] }, contribs := cs,
           base := some b, count := some n } => some (scoreVector ops cs b (n : Int))
  | _ => none

/-- The blocks of a wrapper text: each fragment followed by its class. -/
def vmBlocks : List treeFunction → String
  | [] => ""
  | tf :: rest =>
    tf.Code ++ Nat.repr tf.Class.natAbs ++ (if tf.Class < 0 then "K" else "C") ++ vmBlocks rest

/-- A renderer that emits texts for the stack machine: a leaf is its value
followed by L; a decision node is its left text, its right text, the
threshold, the feature index and the default route; the wrapper is the
blocks of the fragments, the base score and the number of classes. -/
def vmRenderer : renderer :=
  { executeTerminalNode := fun p _ =>
      match p.mem[p.idx]? with
      | none => ("", some (.other "no node"))
      | some nd => (Nat.repr nd.data.SplitCondition.bits ++ "L", none),
    executeDecisionNode := fun p _ left right =>
      match p.mem[p.idx]? with
      | none => ("", some (.other "no node"))
      | some nd =>
        (left ++ right ++ Nat.repr nd.data.SplitCondition.bits ++ "T" ++
          Nat.repr nd.data.SplitIndex.natAbs ++ (if nd.data.SplitIndex < 0 then "G" else "F") ++
          (if nd.data.DefaultLeft != 0 then "Y" else "N"), none),
    executeRoot := fun _ _ baseScore numClasses tfs =>
      if numClasses < 0 then ("", some (.other "negative number of classes"))
      else (vmBlocks tfs ++ Nat.repr baseScore.bits ++ "B" ++ Nat.repr numClasses.toNat ++ "R",
            none) }

/-- Comparison of two float64 values of the samples, which are small
non-negative numbers: the order of their bit patterns. -/
def lessBits (a b : float64) : Bool := decide (a.bits < b.bits)

/-- Score arithmetic of the samples: a slot lists what was added to it. -/
def listOps : scoreOps (List Nat) :=
  { zero := [], add := fun s v => s ++ [v.bits], addBase := fun s b => s ++ [b.bits] }

/-- The feature vector with feature 2 equal to the value of bit pattern 9 and
every other feature missing. -/
def sampleFeatures (i : Int) : Option float64 := if i = 2 then some ⟨9⟩ else none

/-- A list of four trees: the three-node tree (class 0) and single leaves of
classes 1, 0 and 7. -/
def sampleTrees : List (Option nodePtr) :=
  [some ⟨stumpMem, 0⟩, leafPtr 1, leafPtr 0, leafPtr 7]

/-! ## Lemmas on parseTreeInfo -/

theorem index_eq_some_iff {α : Type} (l : List α) (i : Int) :
    (∃ a, index l i = some a) ↔ 0 ≤ i ∧ i < (l.length : Int) := by
  unfold index
  constructor
  · rintro ⟨a, h⟩
    split_ifs at h with h0
    refine ⟨h0, ?_⟩
    have := (List.getElem?_eq_some.mp h).1
    omega
  · rintro ⟨h0, h1⟩
    rw [if_pos h0]
    have : i.toNat < l.length := by omega
    exact ⟨l[i.toNat], by simp [this]⟩

theorem parseTreeInfoBody_ok (xt : xgbTree) (i : Nat) (nodes : List node)
    (hz : nodes[i]? = some zeroNode) (hok : nodeOK xt nodes.length i) :
    parseTreeInfoBody xt i nodes = .ret (nodes.set i (mirrorNode xt i)) := by
  obtain ⟨h1, h2, h3, h4, h5, h6⟩ := hok
  unfold parseTreeInfoBody mirrorNode
  simp only [hz, List.getElem?_eq_getElem h1, List.getElem?_eq_getElem h2,
    List.getElem?_eq_getElem h3, List.getElem?_eq_getElem h4, List.getElem?_eq_getElem h5,
    List.getD_eq_getElem _ _ h1, List.getD_eq_getElem _ _ h2, List.getD_eq_getElem _ _ h3,
    List.getD_eq_getElem _ _ h4, List.getD_eq_getElem _ _ h5] at h6 ⊢
  by_cases hl : xt.LeftChildren[i] = -1
  · simp [hl, zeroNode]
  · simp only [hl, if_false, false_or] at h6 ⊢
    obtain ⟨a, ha⟩ := (index_eq_some_iff nodes xt.LeftChildren[i]).mpr ⟨h6.1, h6.2.1⟩
    obtain ⟨b, hb⟩ := (index_eq_some_iff nodes xt.RightChildren[i]).mpr ⟨h6.2.2.1, h6.2.2.2⟩
    simp [ha, hb, zeroNode]

theorem parseTreeInfoBody_bad (xt : xgbTree) (i : Nat) (nodes : List node)
    (hbad : ¬ nodeOK xt nodes.length i) : parseTreeInfoBody xt i nodes = .panic := by
  unfold parseTreeInfoBody
  cases hn : nodes[i]? with
  | none => simp
  | some nd =>
  cases h1 : xt.DefaultLeft[i]? with
  | none => simp
  | some dl =>
  cases h2 : xt.SplitConditions[i]? with
  | none => simp
  | some sc =>
  cases h3 : xt.SplitIndices[i]? with
  | none => simp
  | some si =>
  cases h4 : xt.LeftChildren[i]? with
  | none => simp
  | some left =>
  cases h5 : xt.RightChildren[i]? with
  | none => simp
  | some right =>
  have g1 := (List.getElem?_eq_some.mp h1).1
  have g2 := (List.getElem?_eq_some.mp h2).1
  have g3 := (List.getElem?_eq_some.mp h3).1
  have g4 := (List.getElem?_eq_some.mp h4).1
  have g5 := (List.getElem?_eq_some.mp h5).1
  have e4 : xt.LeftChildren.getD i 0 = left := by simp [List.getD_eq_getElem?_getD, h4]
  have e5 : xt.RightChildren.getD i 0 = right := by simp [List.getD_eq_getElem?_getD, h5]
  simp only
  by_cases hl : left = -1
  · exact absurd ⟨g1, g2, g3, g4, g5, Or.inl (e4.trans hl)⟩ hbad
  · rw [if_neg hl]
    cases ha : index nodes left with
    | none => rfl
    | some a =>
    cases hb : index nodes right with
    | none => rfl
    | some b =>
    have ra := (index_eq_some_iff nodes left).mp ⟨a, ha⟩
    have rb := (index_eq_some_iff nodes right).mp ⟨b, hb⟩
    refine absurd ⟨g1, g2, g3, g4, g5, Or.inr ?_⟩ hbad
    rw [e4, e5]
    exact ⟨ra.1, ra.2, rb.1, rb.2⟩

theorem parseTreeInfoBody_cases (xt : xgbTree) (i : Nat) (nodes : List node) :
    parseTreeInfoBody xt i nodes = .panic ∨
    ∃ nodes1, parseTreeInfoBody xt i nodes = .ret nodes1 ∧ nodes1.length = nodes.length := by
  unfold parseTreeInfoBody
  split
  · split
    · split
      · exact Or.inr ⟨_, rfl, by simp⟩
      · split
        · exact Or.inl rfl
        · split
          · exact Or.inl rfl
          · exact Or.inr ⟨_, rfl, by simp⟩
    · exact Or.inl rfl
  · exact Or.inl rfl

theorem parseTreeInfoLoop_ok (xt : xgbTree) (n : Nat) :
    ∀ (todo i : Nat), i + todo = n → (∀ j, i ≤ j → j < n → nodeOK xt n j) →
      parseTreeInfoLoop xt todo i
          ((List.range i).map (mirrorNode xt) ++ List.replicate todo zeroNode)
        = .ret ((List.range n).map (mirrorNode xt)) := by
  intro todo
  induction todo with
  | zero =>
    intro i hi _
    have : i = n := by omega
    subst this
    simp [parseTreeInfoLoop]
  | succ todo ih =>
    intro i hi hok
    have hlen : ((List.range i).map (mirrorNode xt)
        ++ List.replicate (todo + 1) zeroNode).length = n := by simp; omega
    have hz : ((List.range i).map (mirrorNode xt)
        ++ List.replicate (todo + 1) zeroNode)[i]? = some zeroNode := by
      rw [List.getElem?_append_right (by simp)]
      simp
    have hb := parseTreeInfoBody_ok xt i _ hz (by rw [hlen]; exact hok i le_rfl (by omega))
    have hset : ((List.range i).map (mirrorNode xt)
        ++ List.replicate (todo + 1) zeroNode).set i (mirrorNode xt i)
        = (List.range (i + 1)).map (mirrorNode xt) ++ List.replicate todo zeroNode := by
      rw [List.set_append_right _ _ (by simp)]
      simp [List.range_succ, List.replicate_succ]
    rw [parseTreeInfoLoop, hb, hset]
    exact ih (i + 1) (by omega) (fun j hj hjn => hok j (by omega) hjn)

theorem parseTreeInfoLoop_bad (xt : xgbTree) (n : Nat) :
    ∀ (todo i : Nat) (nodes : List node), nodes.length = n →
      (∃ j, i ≤ j ∧ j < i + todo ∧ ¬ nodeOK xt n j) →
      parseTreeInfoLoop xt todo i nodes = .panic := by
  intro todo
  induction todo with
  | zero =>
    rintro i nodes _ ⟨j, h1, h2, _⟩
    omega
  | succ todo ih =>
    rintro i nodes hlen ⟨j, h1, h2, hbad⟩
    rw [parseTreeInfoLoop]
    by_cases hi : nodeOK xt n i
    · rcases parseTreeInfoBody_cases xt i nodes with hp | ⟨nodes1, hr, hl⟩
      · rw [hp]
      · rw [hr]
        have hne : j ≠ i := fun h => hbad (h ▸ hi)
        exact ih (i + 1) nodes1 (hl.trans hlen) ⟨j, by omega, by omega, hbad⟩
    · rw [parseTreeInfoBody_bad xt i nodes (by rw [hlen]; exact hi)]

/-- Success of parseTreeInfo: when num_nodes parses to n >= 1 and every node
below n can be assembled, the result is the root of the mirrored arena. -/
theorem parseTreeInfo_ok (xt : xgbTree) (n : Nat)
    (hn : Int64 xt.NumNodes = ((n : Int), none)) (hpos : 0 < n)
    (hok : ∀ j, j < n → nodeOK xt n j) :
    parseTreeInfo xt = .ret (some ⟨(List.range n).map (mirrorNode xt), 0⟩, none) := by
  have h := parseTreeInfoLoop_ok xt n n 0 (by omega) (fun j _ hj => hok j hj)
  simp only [List.range_zero, List.map_nil, List.nil_append] at h
  unfold parseTreeInfo
  rw [hn]
  simp [h, hpos]

/-- Failure of parseTreeInfo: when num_nodes parses to n and some node below
n cannot be assembled, the run stops with a panic. -/
theorem parseTreeInfo_bad (xt : xgbTree) (n j : Nat)
    (hn : Int64 xt.NumNodes = ((n : Int), none)) (hj : j < n) (hbad : ¬ nodeOK xt n j) :
    parseTreeInfo xt = .panic := by
  have h := parseTreeInfoLoop_bad xt n n 0 (List.replicate n zeroNode) (by simp)
    ⟨j, Nat.zero_le _, by omega, hbad⟩
  unfold parseTreeInfo
  rw [hn]
  simp [h]

/-! ## Tree Assembler -/

/-- C3: for a raw tree whose num_nodes parses to n >= 1, whose five parallel
arrays have length n and whose child entries are, at every index, both -1 or
both in 0..n-1, parseTreeInfo returns with a nil error the pointer to node 0
of an arena of n nodes; node i of the arena has ID i, the SplitIndex,
SplitCondition and DefaultLeft found at index i of the arrays, no children
when left_children[i] is -1, and otherwise the nodes of index
left_children[i] and right_children[i] as left and right child. -/
theorem parseTreeInfo_mirrors_arrays (xt : xgbTree) (n : Nat)
    (hn : Int64 xt.NumNodes = ((n : Int), none)) (hpos : 1 ≤ n)
    (hDL : xt.DefaultLeft.length = n) (hLC : xt.LeftChildren.length = n)
    (hRC : xt.RightChildren.length = n) (hSC : xt.SplitConditions.length = n)
    (hSI : xt.SplitIndices.length = n)
    (hch : ∀ i, i < n →
      (xt.LeftChildren.getD i 0 = -1 ∧ xt.RightChildren.getD i 0 = -1) ∨
      (0 ≤ xt.LeftChildren.getD i 0 ∧ xt.LeftChildren.getD i 0 < (n : Int) ∧
       0 ≤ xt.RightChildren.getD i 0 ∧ xt.RightChildren.getD i 0 < (n : Int))) :
    ∃ mem, parseTreeInfo xt = .ret (some ⟨mem, 0⟩, none) ∧ mem.length = n ∧
      ∀ i, i < n → ∃ nd l r, mem[i]? = some nd ∧
        nd.data.ID = (i : Int) ∧
        xt.SplitIndices[i]? = some nd.data.SplitIndex ∧
        xt.SplitConditions[i]? = some nd.data.SplitCondition ∧
        xt.DefaultLeft[i]? = some nd.data.DefaultLeft ∧
        xt.LeftChildren[i]? = some l ∧ xt.RightChildren[i]? = some r ∧
        (l = -1 → nd.left = none ∧ nd.right = none) ∧
        (l ≠ -1 → ∃ a b : Nat, (a : Int) = l ∧ (b : Int) = r ∧
          nd.left = some a ∧ nd.right = some b) := by
  have hok : ∀ j, j < n → nodeOK xt n j := by
    intro j hj
    refine ⟨by omega, by omega, by omega, by omega, by omega, ?_⟩
    rcases hch j hj with h | h
    · exact Or.inl h.1
    · exact Or.inr h
  refine ⟨_, parseTreeInfo_ok xt n hn hpos hok, by simp, ?_⟩
  intro i hi
  refine ⟨mirrorNode xt i, xt.LeftChildren.getD i 0, xt.RightChildren.getD i 0, ?_⟩
  have e1 : i < xt.DefaultLeft.length := by omega
  have e2 : i < xt.LeftChildren.length := by omega
  have e3 : i < xt.RightChildren.length := by omega
  have e4 : i < xt.SplitConditions.length := by omega
  have e5 : i < xt.SplitIndices.length := by omega
  refine ⟨by simp [hi], rfl, ?_, ?_, ?_, ?_, ?_, ?_, ?_⟩
  · simp [mirrorNode, List.getD_eq_getElem _ _ e5, List.getElem?_eq_getElem e5]
  · simp [mirrorNode, List.getD_eq_getElem _ _ e4, List.getElem?_eq_getElem e4]
  · simp [mirrorNode, List.getD_eq_getElem _ _ e1, List.getElem?_eq_getElem e1]
  · simp [List.getD_eq_getElem _ _ e2, List.getElem?_eq_getElem e2]
  · simp [List.getD_eq_getElem _ _ e3, List.getElem?_eq_getElem e3]
  · intro hl
    exact ⟨if_pos hl, if_pos hl⟩
  · intro hl
    rcases hch i hi with h | h
    · exact absurd h.1 hl
    · refine ⟨(xt.LeftChildren.getD i 0).toNat, (xt.RightChildren.getD i 0).toNat,
        Int.toNat_of_nonneg h.1, Int.toNat_of_nonneg h.2.2.1, if_neg hl, if_neg hl⟩

/-- Witness of C3 on the three-node tree. -/
theorem parseTreeInfo_mirrors_arrays_witness :
    ∃ mem, parseTreeInfo stumpTree = .ret (some ⟨mem, 0⟩, none) ∧ mem.length = 3 ∧
      ∀ i : Nat, i < 3 → ∃ nd l r, mem[i]? = some nd ∧
        nd.data.ID = (i : Int) ∧
        stumpTree.SplitIndices[i]? = some nd.data.SplitIndex ∧
        stumpTree.SplitConditions[i]? = some nd.data.SplitCondition ∧
        stumpTree.DefaultLeft[i]? = some nd.data.DefaultLeft ∧
        stumpTree.LeftChildren[i]? = some l ∧ stumpTree.RightChildren[i]? = some r ∧
        (l = -1 → nd.left = none ∧ nd.right = none) ∧
        (l ≠ -1 → ∃ a b : Nat, (a : Int) = l ∧ (b : Int) = r ∧
          nd.left = some a ∧ nd.right = some b) :=
  parseTreeInfo_mirrors_arrays stumpTree 3 (by decide) (by decide) rfl rfl rfl rfl rfl
    (by decide)

theorem nodeOK_left_sentinel (xt : xgbTree) (n i : Nat) (hok : nodeOK xt n i) :
    xt.LeftChildren.getD i 0 = -1 ∨ 0 ≤ xt.RightChildren.getD i 0 := by
  rcases hok.2.2.2.2.2 with h | h
  · exact Or.inl h
  · exact Or.inr h.2.2.1

/-- Counterexample to C5: a node with left entry -1 and right entry 0 is
returned as a leaf with a nil error, and a node with left entry 0 and right
entry -1 stops the run with a panic; neither call returns an error. -/
theorem parseTreeInfo_one_sided_counterexample :
    parseTreeInfo rightOnlyTree
        = .ret (some ⟨[{ left := none, right := none,
                          data := { Class := 0, DefaultLeft := 0, ID := 0,
                                    SplitCondition := ⟨7⟩, SplitIndex := 0 } }], 0⟩, none) ∧
    parseTreeInfo leftOnlyTree = .panic := by
  decide

/-- C5, amended: let num_nodes parse to n and i < n.  If left_children[i] is
not -1 and right_children[i] is -1, parseTreeInfo returns neither a tree nor
an error: the run stops with a panic.  If left_children[i] is -1, the entry
right_children[i] is not looked at: provided every node below n can be
assembled, parseTreeInfo returns a nil error and an arena in which node i has
no children. -/
theorem parseTreeInfo_one_sided (xt : xgbTree) (n i : Nat)
    (hn : Int64 xt.NumNodes = ((n : Int), none)) (hi : i < n) :
    (xt.LeftChildren.getD i 0 ≠ -1 → xt.RightChildren.getD i 0 = -1 →
      parseTreeInfo xt = .panic) ∧
    (xt.LeftChildren.getD i 0 = -1 → (∀ j, j < n → nodeOK xt n j) →
      ∃ mem nd, parseTreeInfo xt = .ret (some ⟨mem, 0⟩, none) ∧
        mem[i]? = some nd ∧ nd.left = none ∧ nd.right = none) := by
  constructor
  · intro hl hr
    refine parseTreeInfo_bad xt n i hn hi (fun hok => ?_)
    rcases nodeOK_left_sentinel xt n i hok with h | h
    · exact hl h
    · omega
  · intro hl hok
    refine ⟨_, mirrorNode xt i, parseTreeInfo_ok xt n hn (by omega) hok, by simp [hi], ?_, ?_⟩
    · exact if_pos hl
    · exact if_pos hl

/-- Witness of C5, amended, on the tree whose only node has left entry -1 and
right entry 0. -/
theorem parseTreeInfo_one_sided_witness :
    ∃ mem nd, parseTreeInfo rightOnlyTree = .ret (some ⟨mem, 0⟩, none) ∧
      mem[0]? = some nd ∧ nd.left = none ∧ nd.right = none :=
  (parseTreeInfo_one_sided rightOnlyTree 1 0 (by decide) (by decide)).2 (by decide)
    (by decide)

/-- Counterexample to C7: with child entries 5 in a one-node tree the call
does not return an error, the run stops with a panic. -/
theorem parseTreeInfo_out_of_range_counterexample :
    parseTreeInfo outOfRangeTree = .panic := by
  decide

/-- C7, amended: when num_nodes parses to n and some node i < n has a left
entry other than -1 and a left or right entry outside 0..n-1, parseTreeInfo
returns neither a tree nor an error: the run stops with a panic. -/
theorem parseTreeInfo_out_of_range (xt : xgbTree) (n i : Nat)
    (hn : Int64 xt.NumNodes = ((n : Int), none)) (hi : i < n)
    (hl : xt.LeftChildren.getD i 0 ≠ -1)
    (hout : xt.LeftChildren.getD i 0 < 0 ∨ (n : Int) ≤ xt.LeftChildren.getD i 0 ∨
            xt.RightChildren.getD i 0 < 0 ∨ (n : Int) ≤ xt.RightChildren.getD i 0) :
    parseTreeInfo xt = .panic := by
  refine parseTreeInfo_bad xt n i hn hi (fun hok => ?_)
  rcases hok.2.2.2.2.2 with h | h
  · exact hl h
  · omega

/-- Witness of C7, amended. -/
theorem parseTreeInfo_out_of_range_witness : parseTreeInfo outOfRangeTree = .panic :=
  parseTreeInfo_out_of_range outOfRangeTree 1 0 (by decide) (by decide) (by decide)
    (by decide)

/-- Counterexample to C8: the one-node tree whose node is its own left and
right child is returned as a root, with a nil error. -/
theorem parseTreeInfo_cycle_counterexample :
    parseTreeInfo selfLoopTree
        = .ret (some ⟨[{ left := some 0, right := some 0,
                          data := { Class := 0, DefaultLeft := 0, ID := 0,
                                    SplitCondition := ⟨7⟩, SplitIndex := 0 } }], 0⟩, none) := by
  decide

/-- C8, amended: parseTreeInfo does not check the shape of the child graph.
When num_nodes parses to n >= 1 and every node below n can be assembled
(arrays reach it, left entry -1 or both entries in 0..n-1), it returns node 0
with a nil error, and every node with a left entry other than -1 points to
the nodes named by its two entries, also when such an entry names the node
itself, an ancestor, or a node that already has a parent. -/
theorem parseTreeInfo_keeps_any_graph (xt : xgbTree) (n : Nat)
    (hn : Int64 xt.NumNodes = ((n : Int), none)) (hpos : 1 ≤ n)
    (hok : ∀ j, j < n → nodeOK xt n j) :
    ∃ mem, parseTreeInfo xt = .ret (some ⟨mem, 0⟩, none) ∧ mem.length = n ∧
      ∀ i, i < n → xt.LeftChildren.getD i 0 ≠ -1 →
        ∃ nd a b, mem[i]? = some nd ∧ nd.left = some a ∧ nd.right = some b ∧
          a < n ∧ b < n ∧ (a : Int) = xt.LeftChildren.getD i 0 ∧
          (b : Int) = xt.RightChildren.getD i 0 := by
  refine ⟨_, parseTreeInfo_ok xt n hn hpos hok, by simp, ?_⟩
  intro i hi hl
  rcases (hok i hi).2.2.2.2.2 with h | h
  · exact absurd h hl
  · refine ⟨mirrorNode xt i, (xt.LeftChildren.getD i 0).toNat,
      (xt.RightChildren.getD i 0).toNat, by simp [hi], if_neg hl, if_neg hl, ?_, ?_, ?_, ?_⟩
    · omega
    · omega
    · exact Int.toNat_of_nonneg h.1
    · exact Int.toNat_of_nonneg h.2.2.1

/-- Witness of C8, amended, on the self-referential one-node tree. -/
theorem parseTreeInfo_keeps_any_graph_witness :
    ∃ mem, parseTreeInfo selfLoopTree = .ret (some ⟨mem, 0⟩, none) ∧ mem.length = 1 ∧
      ∀ i : Nat, i < 1 → selfLoopTree.LeftChildren.getD i 0 ≠ -1 →
        ∃ nd a b, mem[i]? = some nd ∧ nd.left = some a ∧ nd.right = some b ∧
          a < 1 ∧ b < 1 ∧ (a : Int) = selfLoopTree.LeftChildren.getD i 0 ∧
          (b : Int) = selfLoopTree.RightChildren.getD i 0 :=
  parseTreeInfo_keeps_any_graph selfLoopTree 1 (by decide) (by decide) (by decide)

theorem parseTreeInfoBody_truncate (xt : xgbTree) (n i : Nat) (nodes : List node)
    (hi : i < n) :
    parseTreeInfoBody (truncateArrays xt n) i nodes = parseTreeInfoBody xt i nodes := by
  unfold parseTreeInfoBody truncateArrays
  simp only [List.getElem?_take_of_lt hi]

theorem parseTreeInfoLoop_truncate (xt : xgbTree) (n : Nat) :
    ∀ (todo i : Nat) (nodes : List node), i + todo ≤ n →
      parseTreeInfoLoop (truncateArrays xt n) todo i nodes
        = parseTreeInfoLoop xt todo i nodes := by
  intro todo
  induction todo with
  | zero => intro i nodes _; rfl
  | succ todo ih =>
    intro i nodes hle
    rw [parseTreeInfoLoop, parseTreeInfoLoop,
      parseTreeInfoBody_truncate xt n i nodes (by omega)]
    cases parseTreeInfoBody xt i nodes with
    | ret nodes1 => exact ih (i + 1) nodes1 (by omega)
    | panic => rfl
    | timeout => rfl

/-- Counterexample to C6: with arrays longer than num_nodes the call returns
a tree and a nil error, and with arrays shorter than num_nodes the run stops
with a panic; neither call returns an error. -/
theorem parseTreeInfo_array_lengths_counterexample :
    parseTreeInfo longArraysTree
        = .ret (some ⟨[{ left := none, right := none,
                          data := { Class := 0, DefaultLeft := 0, ID := 0,
                                    SplitCondition := ⟨7⟩, SplitIndex := 0 } }], 0⟩, none) ∧
    parseTreeInfo shortArraysTree = .panic := by
  decide

/-- C6, amended: parseTreeInfo does not compare the lengths of the arrays
with num_nodes.  Let num_nodes parse to n.  If one of the five arrays has
fewer than n entries, the call returns neither a tree nor an error: the run
stops with a panic.  Entries at index n and beyond are never read: the
outcome is that of the tree cut down to the first n entries of each array,
and when these can be assembled and n >= 1 it is a tree of n nodes with a
nil error. -/
theorem parseTreeInfo_array_lengths (xt : xgbTree) (n : Nat)
    (hn : Int64 xt.NumNodes = ((n : Int), none)) :
    ((xt.DefaultLeft.length < n ∨ xt.LeftChildren.length < n ∨ xt.RightChildren.length < n ∨
        xt.SplitConditions.length < n ∨ xt.SplitIndices.length < n) →
      parseTreeInfo xt = .panic) ∧
    parseTreeInfo xt = parseTreeInfo (truncateArrays xt n) ∧
    (1 ≤ n → (∀ j, j < n → nodeOK xt n j) →
      ∃ mem, parseTreeInfo xt = .ret (some ⟨mem, 0⟩, none) ∧ mem.length = n) := by
  refine ⟨?_, ?_, ?_⟩
  · intro hshort
    rcases hshort with h | h | h | h | h
    · exact parseTreeInfo_bad xt n _ hn h (fun hok => absurd hok.1 (lt_irrefl _))
    · exact parseTreeInfo_bad xt n _ hn h (fun hok => absurd hok.2.2.2.1 (lt_irrefl _))
    · exact parseTreeInfo_bad xt n _ hn h (fun hok => absurd hok.2.2.2.2.1 (lt_irrefl _))
    · exact parseTreeInfo_bad xt n _ hn h (fun hok => absurd hok.2.1 (lt_irrefl _))
    · exact parseTreeInfo_bad xt n _ hn h (fun hok => absurd hok.2.2.1 (lt_irrefl _))
  · have hn2 : Int64 (truncateArrays xt n).NumNodes = ((n : Int), none) := hn
    unfold parseTreeInfo
    rw [hn, hn2]
    simp only [Int.toNat_ofNat, parseTreeInfoLoop_truncate xt n n 0 _ (by omega)]
  · intro hpos hok
    exact ⟨_, parseTreeInfo_ok xt n hn hpos hok, by simp⟩

/-- Witness of C6, amended, on the tree that declares one node and carries
arrays of length two. -/
theorem parseTreeInfo_array_lengths_witness :
    parseTreeInfo longArraysTree = parseTreeInfo (truncateArrays longArraysTree 1) :=
  (parseTreeInfo_array_lengths longArraysTree 1 (by decide)).2.1

/-! ## Lemmas on readTrees -/

theorem parseTreeInfo_ret_root (t : xgbTree) (p : nodePtr) (e : Option error)
    (h : parseTreeInfo t = .ret (some p, e)) : p.idx = 0 ∧ 0 < p.mem.length ∧ e = none := by
  unfold parseTreeInfo at h
  split at h
  · simp at h
  · split at h
    · simp at h
    · split at h
      · split at h
        · simp only [Run.ret.injEq, Prod.mk.injEq, Option.some.injEq] at h
          obtain ⟨h1, h2⟩ := h
          subst h1
          exact ⟨rfl, by assumption, h2.symm⟩
        · simp at h
      · simp at h
      · simp at h

theorem setClass_root (p : nodePtr) (c : Int) (h : p.idx < p.mem.length) :
    ∃ q, setClass p c = some q := by
  unfold setClass
  rw [List.getElem?_eq_getElem h]
  exact ⟨_, rfl⟩

theorem appendTree_elems (g : Nat → Nat → Nat) (s : treeSlice) (t : Option nodePtr) :
    (appendTree g s t).elems = s.elems ++ [t] := by
  unfold appendTree
  split <;> rfl

theorem appendTree_cap (g : Nat → Nat → Nat) (s : treeSlice) (t : Option nodePtr) :
    (appendTree g s t).elems.length ≤ (appendTree g s t).cap := by
  unfold appendTree
  split
  · simp; omega
  · simp

theorem readTreesLoop_ret (g : Nat → Nat → Nat) (ti : List Int) :
    ∀ (rest : List xgbTree) (i : Nat) (s s1 : treeSlice),
      readTreesLoop g ti rest i s = .ret (.ok s1) → s.elems.length ≤ s.cap →
      s1.elems.length ≤ s1.cap ∧
      ∃ new, s1.elems = s.elems ++ new ∧ new.length = rest.length ∧
        ∀ k t, rest[k]? = some t →
          ∃ p c q, parseTreeInfo t = .ret (some p, none) ∧ ti[i + k]? = some c ∧
            setClass p c = some q ∧ new[k]? = some (some q) := by
  intro rest
  induction rest with
  | nil =>
    intro i s s1 h hcap
    simp only [readTreesLoop, Run.ret.injEq, Except.ok.injEq] at h
    subst h
    exact ⟨hcap, [], by simp, rfl, by simp⟩
  | cons t rest ih =>
    intro i s s1 h hcap
    rw [readTreesLoop] at h
    split at h
    · simp at h
    · simp at h
    · rename_i p hp
      split at h
      · simp at h
      · rename_i c hc
        split at h
        · simp at h
        · rename_i q hq
          obtain ⟨h1, new, h2, h3, h4⟩ := ih (i + 1) _ s1 h (appendTree_cap g s (some q))
          refine ⟨h1, some q :: new, ?_, by simp [h3], ?_⟩
          · rw [h2, appendTree_elems]; simp
          · intro k u hu
            cases k with
            | zero =>
              simp only [List.getElem?_cons_zero, Option.some.injEq] at hu
              subst hu
              exact ⟨p, c, q, hp, hc, hq, by simp⟩
            | succ k =>
              simp only [List.getElem?_cons_succ] at hu
              obtain ⟨p1, c1, q1, e1, e2, e3, e4⟩ := h4 k u hu
              refine ⟨p1, c1, q1, e1, ?_, e3, by simpa using e4⟩
              rw [← e2]; congr 1; omega
    · simp at h
    · simp at h

theorem readTreesLoop_ok (g : Nat → Nat → Nat) (ti : List Int) :
    ∀ (rest : List xgbTree) (i : Nat) (s : treeSlice),
      (∀ (k : Nat) t, rest[k]? = some t → ∃ p, parseTreeInfo t = .ret (some p, none)) →
      i + rest.length ≤ ti.length →
      ∃ s1, readTreesLoop g ti rest i s = .ret (.ok s1) := by
  intro rest
  induction rest with
  | nil => intro i s _ _; exact ⟨s, rfl⟩
  | cons t rest ih =>
    intro i s hasm hlen
    obtain ⟨p, hp⟩ := hasm 0 t (by simp)
    obtain ⟨hidx, hmem, _⟩ := parseTreeInfo_ret_root t p none hp
    have hi : i < ti.length := by simp at hlen; omega
    obtain ⟨q, hq⟩ := setClass_root p ti[i] (by omega)
    have hc : ti[i]? = some ti[i] := List.getElem?_eq_getElem hi
    rw [readTreesLoop, hp]
    simp only [hc, hq]
    exact ih (i + 1) _ (fun k u hu => hasm (k + 1) u (by simpa using hu))
      (by simp at hlen; omega)

theorem readTrees_unmarked (g : Nat → Nat → Nat) (x : xgbModel)
    (full : List (Option nodePtr)) (hb : x.BestIteration = "")
    (h : readTrees g x = .ret (full, none)) :
    ∃ s, readTreesLoop g x.TreeInfo x.Trees 0 { elems := [], cap := 0 } = .ret (.ok s) ∧
      s.elems = full := by
  unfold readTrees at h
  split at h
  · simp at h
  · rename_i trees htrees
    rw [if_pos hb] at h
    simp only [Run.ret.injEq, Prod.mk.injEq, and_true] at h
    exact ⟨trees, htrees, h⟩
  · simp at h
  · simp at h

theorem wrapInt64_id (v : Int) (h0 : -(2 ^ 63) ≤ v) (h1 : v < 2 ^ 63) : wrapInt64 v = v := by
  unfold wrapInt64
  omega

theorem resliceTo_within (s : treeSlice) (m : Nat) (hm : m ≤ s.elems.length)
    (hcap : s.elems.length ≤ s.cap) : resliceTo s (m : Int) = .ret (s.elems.take m) := by
  unfold resliceTo
  rw [if_pos ⟨by omega, by omega⟩]
  simp only [Int.toNat_ofNat, List.take_append_of_le_length hm]

theorem setClass_spec (p q : nodePtr) (c : Int) (h : setClass p c = some q) :
    ∃ rootP, p.mem[p.idx]? = some rootP ∧ q.idx = p.idx ∧
      q.mem = p.mem.set p.idx { rootP with data := { rootP.data with Class := c } } := by
  unfold setClass at h
  split at h
  · simp at h
  · rename_i nd hnd
    simp only [Option.some.injEq] at h
    subst h
    exact ⟨nd, hnd, rfl, rfl⟩

theorem readTrees_ret_loop (g : Nat → Nat → Nat) (x : xgbModel)
    (trees : List (Option nodePtr)) (h : readTrees g x = .ret (trees, none)) :
    ∃ s, readTreesLoop g x.TreeInfo x.Trees 0 { elems := [], cap := 0 } = .ret (.ok s) ∧
      ∀ i : Nat, i < trees.length → i < s.elems.length → trees[i]? = s.elems[i]? := by
  unfold readTrees at h
  split at h
  · simp at h
  · rename_i s hs
    refine ⟨s, hs, ?_⟩
    split at h
    · simp only [Run.ret.injEq, Prod.mk.injEq, and_true] at h
      subst h
      intro i _ _
      rfl
    · split at h
      · simp at h
      · split at h
        · rename_i kept hkept
          simp only [Run.ret.injEq, Prod.mk.injEq, and_true] at h
          subst h
          unfold resliceTo at hkept
          split at hkept
          · simp only [Run.ret.injEq] at hkept
            subst hkept
            intro i hi hi2
            rw [List.length_take] at hi
            rw [List.getElem?_take_of_lt (by omega), List.getElem?_append_left hi2]
          · simp at hkept
        · simp at h
        · simp at h
  · simp at h
  · simp at h

/-! ## Ensemble Loader -/

/-- C1: let full be the list of all assembled trees of the model (what
readTrees returns for the model with its best_iteration removed), and let
best_iteration parse to k with 0 <= k < T, where T is the length of full (a
length that fits a Go int).  Then readTrees returns, with a nil error, the
first k+1 entries of full: a list of length k+1 whose entry at every position
i <= k is the entry of full at i, so that positions k+1..T-1 are left out.
T is the number of raw trees of the model. -/
theorem readTrees_truncates (growCap : Nat → Nat → Nat) (x : xgbModel)
    (full : List (Option nodePtr)) (k : Int)
    (hfull : readTrees growCap { x with BestIteration := "" } = .ret (full, none))
    (hk : Int64 x.BestIteration = (k, none)) (h0 : 0 ≤ k) (hT : k < (full.length : Int))
    (hint : (full.length : Int) < 2 ^ 63) :
    readTrees growCap x = .ret (full.take (k.toNat + 1), none) ∧
    (full.take (k.toNat + 1)).length = k.toNat + 1 ∧
    (∀ i : Nat, i ≤ k.toNat → (full.take (k.toNat + 1))[i]? = full[i]?) ∧
    full.length = x.Trees.length := by
  obtain ⟨s, hloop, hs⟩ := readTrees_unmarked growCap { x with BestIteration := "" } full rfl hfull
  obtain ⟨hcap, new, hnew, hlen, _⟩ :=
    readTreesLoop_ret growCap x.TreeInfo x.Trees 0 _ s hloop (by simp)
  have hne : x.BestIteration ≠ "" := by
    intro h
    have e : (Int64 "").2 ≠ none := by decide
    rw [h] at hk
    rw [hk] at e
    exact e rfl
  have hwrap : wrapInt64 (k + 1) = ((k.toNat + 1 : Nat) : Int) := by
    rw [wrapInt64_id (k + 1) (by omega) (by omega)]
    omega
  have hle : k.toNat + 1 ≤ s.elems.length := by rw [hs]; omega
  refine ⟨?_, ?_, ?_, ?_⟩
  · unfold readTrees
    change (match readTreesLoop growCap x.TreeInfo x.Trees 0 { elems := [], cap := 0 } with
      | .ret (.error err) => _ | .ret (.ok trees) => _ | .panic => _ | .timeout => _) = _
    rw [hloop]
    simp only [if_neg hne, hk, hwrap, resliceTo_within s _ hle hcap, hs]
  · rw [List.length_take]; omega
  · intro i hi
    exact List.getElem?_take_of_lt (by omega)
  · rw [← hs, hnew]; simpa using hlen

/-- Witness of C1 on the model of three trees with best_iteration 1. -/
theorem readTrees_truncates_witness :
    readTrees doubleCap sampleModel = .ret ([leafPtr 0, leafPtr 1], none) :=
  (readTrees_truncates doubleCap sampleModel [leafPtr 0, leafPtr 1, leafPtr 2] 1
    (by decide) (by decide) (by decide) (by decide) (by decide)).1

/-- Counterexample to C2: the model has no best_iteration and both of its
trees are assembled by parseTreeInfo, but tree_info has an entry for the first
tree only; readTrees returns nothing, the run stops with a panic at the
second tree. -/
theorem readTrees_keeps_all_counterexample :
    shortTreeInfoModel.BestIteration = "" ∧
    (∀ t ∈ shortTreeInfoModel.Trees, parseTreeInfo t = .ret (leafPtr 0, none)) ∧
    readTrees doubleCap shortTreeInfoModel = .panic := by
  decide

/-- C2, amended: for a model without best_iteration whose raw trees are all
assembled by parseTreeInfo and whose tree_info has an entry for every raw
tree, readTrees returns with a nil error a list of exactly T trees, T the
number of raw trees; its i-th entry is the tree that parseTreeInfo assembles
from the i-th raw tree, with tree_info[i] stored as the Class of its root. -/
theorem readTrees_keeps_all (growCap : Nat → Nat → Nat) (x : xgbModel)
    (hb : x.BestIteration = "") (hti : x.Trees.length ≤ x.TreeInfo.length)
    (hasm : ∀ (i : Nat) t, x.Trees[i]? = some t →
      ∃ p, parseTreeInfo t = .ret (some p, none)) :
    ∃ trees, readTrees growCap x = .ret (trees, none) ∧ trees.length = x.Trees.length ∧
      ∀ (i : Nat) t, x.Trees[i]? = some t →
        ∃ p c q, parseTreeInfo t = .ret (some p, none) ∧ x.TreeInfo[i]? = some c ∧
          setClass p c = some q ∧ trees[i]? = some (some q) := by
  obtain ⟨s, hloop⟩ :=
    readTreesLoop_ok growCap x.TreeInfo x.Trees 0 { elems := [], cap := 0 } hasm (by omega)
  obtain ⟨_, new, hnew, hlen, hall⟩ :=
    readTreesLoop_ret growCap x.TreeInfo x.Trees 0 _ s hloop (by simp)
  simp only [List.nil_append] at hnew
  refine ⟨s.elems, ?_, by rw [hnew, hlen], ?_⟩
  · unfold readTrees
    rw [hloop]
    simp only [if_pos hb]
  · intro i t ht
    obtain ⟨p, c, q, e1, e2, e3, e4⟩ := hall i t ht
    exact ⟨p, c, q, e1, by simpa using e2, e3, by rw [hnew]; exact e4⟩

/-- Witness of C2, amended, on the model of three trees without
best_iteration. -/
theorem readTrees_keeps_all_witness :
    ∃ trees, readTrees doubleCap sampleModelAll = .ret (trees, none) ∧
      trees.length = sampleModelAll.Trees.length ∧
      ∀ (i : Nat) t, sampleModelAll.Trees[i]? = some t →
        ∃ p c q, parseTreeInfo t = .ret (some p, none) ∧
          sampleModelAll.TreeInfo[i]? = some c ∧
          setClass p c = some q ∧ trees[i]? = some (some q) :=
  readTrees_keeps_all doubleCap sampleModelAll rfl (by decide)
    (fun i t ht => by
      obtain ⟨h, e⟩ := List.getElem?_eq_some.mp ht
      have h3 : i < 3 := h
      have hleaf : parseTreeInfo leafTree = Run.ret (leafPtr 0, none) := by decide
      interval_cases i <;> (subst e; exact ⟨_, hleaf⟩))

/-- C4: when readTrees returns a tree list with a nil error, then at every
position i of that list that is the position of a raw tree t of the model,
the entry is a pointer to the same place as the one parseTreeInfo returns for
t, into an arena of the same length; the root it points to has Class =
tree_info[i] and the left, right, DefaultLeft, ID, SplitCondition and
SplitIndex of the root that parseTreeInfo built, and every other node of the
arena is the one parseTreeInfo built. -/
theorem readTrees_attaches_class (growCap : Nat → Nat → Nat) (x : xgbModel)
    (trees : List (Option nodePtr)) (i : Nat) (t : xgbTree)
    (hret : readTrees growCap x = .ret (trees, none)) (hi : i < trees.length)
    (ht : x.Trees[i]? = some t) :
    ∃ p q rootP rootQ c, parseTreeInfo t = .ret (some p, none) ∧ x.TreeInfo[i]? = some c ∧
      trees[i]? = some (some q) ∧ q.idx = p.idx ∧
      p.mem[p.idx]? = some rootP ∧ q.mem[q.idx]? = some rootQ ∧
      rootQ.data.Class = c ∧ rootQ.left = rootP.left ∧ rootQ.right = rootP.right ∧
      rootQ.data.DefaultLeft = rootP.data.DefaultLeft ∧ rootQ.data.ID = rootP.data.ID ∧
      rootQ.data.SplitCondition = rootP.data.SplitCondition ∧
      rootQ.data.SplitIndex = rootP.data.SplitIndex ∧
      q.mem.length = p.mem.length ∧ ∀ j : Nat, j ≠ p.idx → q.mem[j]? = p.mem[j]? := by
  obtain ⟨s, hloop, hsame⟩ := readTrees_ret_loop growCap x trees hret
  obtain ⟨_, new, hnew, hlen, hall⟩ :=
    readTreesLoop_ret growCap x.TreeInfo x.Trees 0 _ s hloop (by simp)
  simp only [List.nil_append] at hnew
  obtain ⟨p, c, q, e1, e2, e3, e4⟩ := hall i t ht
  obtain ⟨rootP, r1, r2, r3⟩ := setClass_spec p q c e3
  have hi2 : i < s.elems.length := by
    rw [hnew, hlen]
    exact (List.getElem?_eq_some.mp ht).1
  have hroot : p.idx < p.mem.length := (List.getElem?_eq_some.mp r1).1
  refine ⟨p, q, rootP, { rootP with data := { rootP.data with Class := c } }, c, e1,
    by simpa using e2, ?_, r2, r1, ?_, rfl, rfl, rfl, rfl, rfl, rfl, rfl, ?_, ?_⟩
  · rw [hsame i hi hi2, hnew]; exact e4
  · rw [r2, r3]
    simp [hroot]
  · rw [r3]; simp
  · intro j hj
    rw [r3]
    simp [List.getElem?_set, Ne.symm hj]

/-- Witness of C4 at position 1 of the model with best_iteration 1. -/
theorem readTrees_attaches_class_witness :
    ∃ p q rootP rootQ c, parseTreeInfo leafTree = .ret (some p, none) ∧
      sampleModel.TreeInfo[1]? = some c ∧
      [leafPtr 0, leafPtr 1][1]? = some (some q) ∧ q.idx = p.idx ∧
      p.mem[p.idx]? = some rootP ∧ q.mem[q.idx]? = some rootQ ∧
      rootQ.data.Class = c ∧ rootQ.left = rootP.left ∧ rootQ.right = rootP.right ∧
      rootQ.data.DefaultLeft = rootP.data.DefaultLeft ∧ rootQ.data.ID = rootP.data.ID ∧
      rootQ.data.SplitCondition = rootP.data.SplitCondition ∧
      rootQ.data.SplitIndex = rootP.data.SplitIndex ∧
      q.mem.length = p.mem.length ∧ ∀ j : Nat, j ≠ p.idx → q.mem[j]? = p.mem[j]? :=
  readTrees_attaches_class doubleCap sampleModel [leafPtr 0, leafPtr 1] 1 leafTree
    (by decide) (by decide) (by decide)

/-! ## Lemmas on generateSource -/

theorem codegenTree_ret_deref (r : renderer) (fuel : Nat) (t : Option nodePtr) (level : Int)
    (out : String × Option error) (h : codegenTree r fuel t level = .ret out) :
    ∃ p nd, t = some p ∧ p.mem[p.idx]? = some nd := by
  cases fuel with
  | zero => simp [codegenTree] at h
  | succ fuel =>
    cases t with
    | none => simp [codegenTree] at h
    | some p =>
      cases hnd : p.mem[p.idx]? with
      | none => simp [codegenTree, hnd] at h
      | some nd => exact ⟨p, nd, rfl, hnd⟩

/-- A root that is its own left child: codegenTree uses up every budget, the
Go recursion does not end. -/
theorem codegenTree_self_loop (r : renderer) (mem : List node) (nd : node) (b : Nat)
    (h : mem[0]? = some nd) (hl : nd.left = some 0) (hr : nd.right = some b) :
    ∀ (fuel : Nat) (level : Int), codegenTree r fuel (some ⟨mem, 0⟩) level = .timeout := by
  intro fuel
  induction fuel with
  | zero => intro level; rfl
  | succ fuel ih =>
    intro level
    rw [codegenTree]
    simp only [h, hl, hr, Option.map_some', ih (level + 1)]
    simp

theorem generateSourceLoop_ok (r : renderer) (fuel : Nat) (funcName : String) :
    ∀ (trees : List (Option nodePtr)) (i : Nat) (acc : List treeFunction),
      (∀ u ∈ trees, ∃ code, codegenTree r fuel u 0 = .ret (code, none)) →
      ∃ new, generateSourceLoop r fuel funcName trees i acc = .ret (.ok (acc ++ new)) ∧
        new.length = trees.length ∧
        ∀ (k : Nat) p nd, trees[k]? = some (some p) → p.mem[p.idx]? = some nd →
          ∃ code, codegenTree r fuel (some p) 0 = .ret (code, none) ∧
            new[k]? = some { Code := code,
                             Name := "tree" ++ funcName ++ "_" ++ Nat.repr (i + k),
                             Class := nd.data.Class } := by
  intro trees
  induction trees with
  | nil =>
    intro i acc _
    exact ⟨[], by simp [generateSourceLoop], rfl, by simp⟩
  | cons t rest ih =>
    intro i acc hcg
    obtain ⟨code, hcode⟩ := hcg t (List.mem_cons_self _ _)
    obtain ⟨p, nd, hp, hnd⟩ := codegenTree_ret_deref r fuel t 0 _ hcode
    subst hp
    obtain ⟨new, h1, h2, h3⟩ := ih (i + 1)
      (acc ++ [{ Code := code, Name := "tree" ++ funcName ++ "_" ++ Nat.repr i,
                 Class := nd.data.Class }])
      (fun u hu => hcg u (List.mem_cons_of_mem _ hu))
    refine ⟨{ Code := code, Name := "tree" ++ funcName ++ "_" ++ Nat.repr i,
              Class := nd.data.Class } :: new, ?_, by simp [h2], ?_⟩
    · rw [generateSourceLoop, hcode]
      simp only [hnd, h1, List.append_assoc, List.singleton_append]
    · intro k q nq hk hq
      cases k with
      | zero =>
        simp only [List.getElem?_cons_zero, Option.some.injEq] at hk
        subst hk
        rw [hnd] at hq
        simp only [Option.some.injEq] at hq
        subst hq
        exact ⟨code, hcode, by simp⟩
      | succ k =>
        simp only [List.getElem?_cons_succ] at hk
        obtain ⟨c, e1, e2⟩ := h3 k q nq hk hq
        refine ⟨c, e1, ?_⟩
        simp only [List.getElem?_cons_succ, e2]
        congr 4
        omega

theorem generateSourceLoop_fail (r : renderer) (fuel : Nat) (funcName : String)
    (t : Option nodePtr) (post : List (Option nodePtr)) (c : String) (e : error)
    (ht : codegenTree r fuel t 0 = .ret (c, some e)) :
    ∀ (pre : List (Option nodePtr)) (i : Nat) (acc : List treeFunction),
      (∀ u ∈ pre, ∃ code, codegenTree r fuel u 0 = .ret (code, none)) →
      generateSourceLoop r fuel funcName (pre ++ t :: post) i acc = .ret (.error e) := by
  intro pre
  induction pre with
  | nil =>
    intro i acc _
    simp only [List.nil_append]
    rw [generateSourceLoop, ht]
  | cons u pre ih =>
    intro i acc hcg
    obtain ⟨code, hcode⟩ := hcg u (List.mem_cons_self _ _)
    obtain ⟨p, nd, hp, hnd⟩ := codegenTree_ret_deref r fuel u 0 _ hcode
    subst hp
    simp only [List.cons_append]
    rw [generateSourceLoop, hcode]
    simp only [hnd]
    exact ih (i + 1) _ (fun v hv => hcg v (List.mem_cons_of_mem _ hv))

/-! ## Code Emitter -/

/-- Counterexample to C9: with num_class 1, a tree whose root Class is 5 and
a tree whose root Class is -1 are both compiled to a text with a nil error. -/
theorem generateSource_dangling_class_counterexample :
    generateSource formatAccept 1 "p" "f" ⟨0⟩ 1 [leafPtr 5] plainRenderer
      = .ret ("package p", none) ∧
    generateSource formatAccept 1 "p" "f" ⟨0⟩ 1 [leafPtr (-1)] plainRenderer
      = .ret ("package p", none) := by
  decide

/-- C9, amended: generateSource does not compare a root Class with
num_class.  When codegenTree succeeds on every tree, generateSource hands to
executeRoot one fragment per tree that carries the root Class of that tree,
whether or not it lies in 0..C-1, and when executeRoot returns a nil error and
the syntax check accepts its text, that text is returned with a nil error; a
class outside the range is an error only if the renderer or the syntax check
makes it one. -/
theorem generateSource_copies_class (formatSource : String → String × Option error)
    (fuel : Nat) (packageName funcName : String) (baseScore : float32) (numClasses : Int)
    (trees : List (Option nodePtr)) (r : renderer)
    (hcg : ∀ u ∈ trees, ∃ code, codegenTree r fuel u 0 = .ret (code, none)) :
    ∃ tfs, generateSourceLoop r fuel funcName trees 0 [] = .ret (.ok tfs) ∧
      tfs.length = trees.length ∧
      (∀ (i : Nat) p nd, trees[i]? = some (some p) → p.mem[p.idx]? = some nd →
        ∃ tf, tfs[i]? = some tf ∧ tf.Class = nd.data.Class) ∧
      ∀ code out, r.executeRoot packageName funcName baseScore numClasses tfs = (code, none) →
        formatSource code = (out, none) →
        generateSource formatSource fuel packageName funcName baseScore numClasses trees r
          = .ret (code, none) := by
  obtain ⟨new, h1, h2, h3⟩ := generateSourceLoop_ok r fuel funcName trees 0 [] hcg
  simp only [List.nil_append] at h1
  refine ⟨new, h1, h2, ?_, ?_⟩
  · intro i p nd hp hnd
    obtain ⟨code, _, e⟩ := h3 i p nd hp hnd
    exact ⟨_, e, rfl⟩
  · intro code out hroot hfmt
    unfold generateSource
    rw [h1]
    simp only [hroot, hfmt]

/-- Witness of C9, amended, on a tree of class 5 with num_class 1. -/
theorem generateSource_copies_class_witness :
    ∃ tfs, generateSourceLoop plainRenderer 1 "f" [leafPtr 5] 0 [] = .ret (.ok tfs) ∧
      tfs.length = [leafPtr 5].length ∧
      (∀ (i : Nat) p nd, [leafPtr 5][i]? = some (some p) → p.mem[p.idx]? = some nd →
        ∃ tf, tfs[i]? = some tf ∧ tf.Class = nd.data.Class) ∧
      ∀ code out, plainRenderer.executeRoot "p" "f" ⟨0⟩ 1 tfs = (code, none) →
        formatAccept code = (out, none) →
        generateSource formatAccept 1 "p" "f" ⟨0⟩ 1 [leafPtr 5] plainRenderer
          = .ret (code, none) :=
  generateSource_copies_class formatAccept 1 "p" "f" ⟨0⟩ 1 [leafPtr 5] plainRenderer
    (fun u hu => by
      simp only [List.mem_singleton] at hu
      subst hu
      exact ⟨"leaf", by decide⟩)

/-- C10: generateSource never returns a non-empty text together with an
error.  Whenever it returns a pair, a non-empty text comes with the nil
error.  When codegenTree returns an error for a tree (those before it having
been generated), when executeRoot returns an error for the fragments of the
trees, or when the syntax check returns an error for the text of executeRoot,
generateSource returns the empty text and a non-nil error: that of
codegenTree, that of executeRoot, or that of the syntax check wrapped as
"error formatting code: ...". -/
theorem generateSource_no_partial_output (formatSource : String → String × Option error)
    (fuel : Nat) (packageName funcName : String) (baseScore : float32) (numClasses : Int)
    (trees : List (Option nodePtr)) (r : renderer) :
    (∀ text err,
      generateSource formatSource fuel packageName funcName baseScore numClasses trees r
        = .ret (text, err) → text ≠ "" → err = none) ∧
    (∀ pre t post c e, trees = pre ++ t :: post →
      (∀ u ∈ pre, ∃ code, codegenTree r fuel u 0 = .ret (code, none)) →
      codegenTree r fuel t 0 = .ret (c, some e) →
      generateSource formatSource fuel packageName funcName baseScore numClasses trees r
        = .ret ("", some e)) ∧
    (∀ tfs c e, generateSourceLoop r fuel funcName trees 0 [] = .ret (.ok tfs) →
      r.executeRoot packageName funcName baseScore numClasses tfs = (c, some e) →
      generateSource formatSource fuel packageName funcName baseScore numClasses trees r
        = .ret ("", some e)) ∧
    (∀ tfs code out e, generateSourceLoop r fuel funcName trees 0 [] = .ret (.ok tfs) →
      r.executeRoot packageName funcName baseScore numClasses tfs = (code, none) →
      formatSource code = (out, some e) →
      generateSource formatSource fuel packageName funcName baseScore numClasses trees r
        = .ret ("", some (.wrap "error formatting code: " e))) := by
  refine ⟨?_, ?_, ?_, ?_⟩
  · intro text err h hne
    unfold generateSource at h
    split at h
    · simp only [Run.ret.injEq, Prod.mk.injEq] at h
      exact absurd h.1.symm hne
    · split at h
      · simp only [Run.ret.injEq, Prod.mk.injEq] at h
        exact absurd h.1.symm hne
      · split at h
        · simp only [Run.ret.injEq, Prod.mk.injEq] at h
          exact absurd h.1.symm hne
        · simp only [Run.ret.injEq, Prod.mk.injEq] at h
          exact h.2.symm
    · simp at h
    · simp at h
  · intro pre t post c e htrees hpre ht
    unfold generateSource
    rw [htrees, generateSourceLoop_fail r fuel funcName t post c e ht pre 0 [] hpre]
  · intro tfs c e hloop hroot
    unfold generateSource
    rw [hloop]
    simp only [hroot]
  · intro tfs code out e hloop hroot hfmt
    unfold generateSource
    rw [hloop]
    simp only [hroot, hfmt]

/-- Witness of C10: with a syntax check that rejects the text, the result is
the empty text and the wrapped error. -/
theorem generateSource_no_partial_output_witness :
    generateSource formatReject 1 "p" "f" ⟨0⟩ 1 [leafPtr 0] plainRenderer
      = .ret ("", some (.wrap "error formatting code: " (.other "syntax error"))) :=
  (generateSource_no_partial_output formatReject 1 "p" "f" ⟨0⟩ 1 [leafPtr 0]
    plainRenderer).2.2.2 [{ Code := "leaf", Name := "treef_0", Class := 0 }] "package p" ""
    (.other "syntax error") (by rfl) (by decide) (by decide)

/-! ## Well-formedness Validator -/

theorem generateSource_ret_ok (formatSource : String → String × Option error)
    (fuel : Nat) (packageName funcName : String) (baseScore : float32) (numClasses : Int)
    (trees : List (Option nodePtr)) (r : renderer) (code : String)
    (h : generateSource formatSource fuel packageName funcName baseScore numClasses trees r
          = .ret (code, none)) :
    ∃ tfs formatted, generateSourceLoop r fuel funcName trees 0 [] = .ret (.ok tfs) ∧
      r.executeRoot packageName funcName baseScore numClasses tfs = (code, none) ∧
      formatSource code = (formatted, none) := by
  unfold generateSource at h
  split at h
  · simp at h
  · rename_i tfs htfs
    split at h
    · simp at h
    · rename_i text hroot
      split at h
      · simp at h
      · rename_i formatted hfmt
        simp only [Run.ret.injEq, Prod.mk.injEq, and_true] at h
        subst h
        exact ⟨tfs, formatted, htfs, hroot, hfmt⟩
  · simp at h
  · simp at h

/-- C11: whenever generateSource returns a text with a nil error, that text is
the text executeRoot returned for the fragments of the trees; the syntax check
accepted it, and the text the syntax check returned as formatted, whatever it
is, is not what is returned. -/
theorem generateSource_returns_root_text (formatSource : String → String × Option error)
    (fuel : Nat) (packageName funcName : String) (baseScore : float32) (numClasses : Int)
    (trees : List (Option nodePtr)) (r : renderer) (code : String)
    (h : generateSource formatSource fuel packageName funcName baseScore numClasses trees r
          = .ret (code, none)) :
    ∃ tfs formatted, generateSourceLoop r fuel funcName trees 0 [] = .ret (.ok tfs) ∧
      r.executeRoot packageName funcName baseScore numClasses tfs = (code, none) ∧
      formatSource code = (formatted, none) := by
  unfold generateSource at h
  split at h
  · simp at h
  · rename_i tfs htfs
    split at h
    · simp at h
    · rename_i text hroot
      split at h
      · simp at h
      · rename_i formatted hfmt
        simp only [Run.ret.injEq, Prod.mk.injEq, and_true] at h
        subst h
        exact ⟨tfs, formatted, htfs, hroot, hfmt⟩
  · simp at h
  · simp at h

/-- Witness of C11 with a syntax check that returns a rewritten text: the
text returned is the one of executeRoot. -/
theorem generateSource_returns_root_text_witness :
    ∃ tfs formatted, generateSourceLoop plainRenderer 1 "f" [leafPtr 0] 0 [] = .ret (.ok tfs) ∧
      plainRenderer.executeRoot "p" "f" ⟨0⟩ 1 tfs = ("package p", none) ∧
      formatRewrite "package p" = (formatted, none) :=
  generateSource_returns_root_text formatRewrite 1 "p" "f" ⟨0⟩ 1 [leafPtr 0] plainRenderer
    "package p" (by decide)

/-! ## Decimal rendering -/

theorem digitChar_toNat (m : Nat) (h : m < 10) :
    48 ≤ (Nat.digitChar m).toNat ∧ (Nat.digitChar m).toNat ≤ 57 ∧
      (Nat.digitChar m).toNat - 48 = m := by
  interval_cases m <;> decide

theorem toDigitsCore_append (fuel : Nat) :
    ∀ (n : Nat) (ds : List Char),
      Nat.toDigitsCore 10 fuel n ds = Nat.toDigitsCore 10 fuel n [] ++ ds := by
  induction fuel with
  | zero => intro n ds; simp [Nat.toDigitsCore]
  | succ fuel ih =>
    intro n ds
    simp only [Nat.toDigitsCore]
    by_cases h : n / 10 = 0
    · simp [h]
    · simp only [h, if_false]
      rw [ih (n / 10) (Nat.digitChar (n % 10) :: ds), ih (n / 10) [Nat.digitChar (n % 10)]]
      simp

theorem decimalValue_append_singleton (cs : List Char) (c : Char) :
    decimalValue (cs ++ [c]) = decimalValue cs * 10 + (c.toNat - 48) := by
  simp [decimalValue, List.foldl_append]

theorem decimalValue_toDigitsCore (fuel : Nat) :
    ∀ n : Nat, n < fuel → decimalValue (Nat.toDigitsCore 10 fuel n []) = n := by
  induction fuel with
  | zero => intro n h; omega
  | succ fuel ih =>
    intro n hn
    simp only [Nat.toDigitsCore]
    have hd := (digitChar_toNat (n % 10) (Nat.mod_lt _ (by decide))).2.2
    by_cases h : n / 10 = 0
    · simp only [h, if_true]
      have : decimalValue [Nat.digitChar (n % 10)] = (Nat.digitChar (n % 10)).toNat - 48 := by
        simp [decimalValue]
      rw [this, hd]
      omega
    · simp only [h, if_false]
      rw [toDigitsCore_append fuel (n / 10) [Nat.digitChar (n % 10)],
        decimalValue_append_singleton, ih (n / 10) (by omega), hd]
      omega

theorem decimalValue_repr (n : Nat) : decimalValue (Nat.repr n).data = n := by
  have h : (Nat.repr n).data = Nat.toDigitsCore 10 (n + 1) n [] := rfl
  rw [h]
  exact decimalValue_toDigitsCore (n + 1) n (by omega)

theorem repr_injective (i j : Nat) (h : Nat.repr i = Nat.repr j) : i = j := by
  have := congrArg (fun s => decimalValue s.data) h
  simpa [decimalValue_repr] using this

theorem generateSourceLoop_names (r : renderer) (fuel : Nat) (funcName : String) :
    ∀ (trees : List (Option nodePtr)) (i : Nat) (acc tfs : List treeFunction),
      generateSourceLoop r fuel funcName trees i acc = .ret (.ok tfs) →
      ∃ new, tfs = acc ++ new ∧
        ∀ (k : Nat) tf, new[k]? = some tf → tf.Name = fragmentName funcName (i + k) := by
  intro trees
  induction trees with
  | nil =>
    intro i acc tfs h
    simp only [generateSourceLoop, Run.ret.injEq, Except.ok.injEq] at h
    exact ⟨[], by simp [h], by simp⟩
  | cons t rest ih =>
    intro i acc tfs h
    rw [generateSourceLoop] at h
    split at h
    · simp at h
    · rename_i code hcode
      split at h
      · simp at h
      · split at h
        · simp at h
        · rename_i p nd hnd
          obtain ⟨new, h1, h2⟩ := ih (i + 1) _ tfs h
          refine ⟨{ Code := code, Name := "tree" ++ funcName ++ "_" ++ Nat.repr i,
                    Class := nd.data.Class } :: new, by rw [h1]; simp, ?_⟩
          intro k tf hk
          cases k with
          | zero =>
            simp only [List.getElem?_cons_zero, Option.some.injEq] at hk
            subst hk
            rfl
          | succ k =>
            simp only [List.getElem?_cons_succ] at hk
            rw [h2 k tf hk]
            congr 1
            omega
    · simp at h
    · simp at h

/-! ## Fragment names -/

/-- C12: for every function name f and every two positions i and j that
differ, the identifiers "tree" ++ f ++ "_" ++ decimal(i) and "tree" ++ f ++
"_" ++ decimal(j) are different strings; and these are the names
generateSource gives its fragments: in the fragment list it builds, the entry
at position i has the name of position i. -/
theorem fragmentName_distinct (f : String) (i j : Nat) (hij : i ≠ j) :
    fragmentName f i ≠ fragmentName f j ∧
    ∀ (r : renderer) (fuel : Nat) (trees : List (Option nodePtr)) (tfs : List treeFunction)
      (tf : treeFunction), generateSourceLoop r fuel f trees 0 [] = .ret (.ok tfs) →
      tfs[i]? = some tf → tf.Name = fragmentName f i := by
  constructor
  · intro h
    unfold fragmentName at h
    have hd := congrArg String.data h
    simp only [String.data_append, List.append_assoc, List.append_cancel_left_eq] at hd
    exact hij (repr_injective i j (String.ext hd))
  · intro r fuel trees tfs tf hloop htf
    obtain ⟨new, h1, h2⟩ := generateSourceLoop_names r fuel f trees 0 [] tfs hloop
    simp only [List.nil_append] at h1
    subst h1
    simpa using h2 i tf htf

/-- Witness of C12 at positions 1 and 11. -/
theorem fragmentName_distinct_witness : fragmentName "f" 1 ≠ fragmentName "f" 11 :=
  (fragmentName_distinct "f" 1 11 (by decide)).1

/-! ## Best-iteration marker -/

/-- Counterexample to C13: with a best_iteration that is not an integer, a
model whose tree has no num_nodes gets the error of num_nodes with no trees;
no error about best_iteration is returned. -/
theorem readTrees_malformed_marker_counterexample :
    badTreeBadMarkerModel.BestIteration ≠ "" ∧
    (Int64 badTreeBadMarkerModel.BestIteration).2 ≠ none ∧
    readTrees doubleCap badTreeBadMarkerModel
      = .ret ([], some (.wrap "error parsing num_nodes as an integer: "
                          (.syntaxError "ParseInt" ""))) := by
  decide

/-- C13, amended: let best_iteration be non-empty and not parse as an
integer.  Then readTrees never returns a tree list with a nil error (it does
not fall back to keeping all trees); and when the loop over the raw trees,
which runs first, assembles all of them (readTrees returns them for the model
without its marker), readTrees returns no trees and the error of the parse
wrapped as "error parsing best_iteration as int: ...", whose message starts
with these words. -/
theorem readTrees_malformed_marker (growCap : Nat → Nat → Nat) (x : xgbModel)
    (k : Int) (err : error) (hne : x.BestIteration ≠ "")
    (hbad : Int64 x.BestIteration = (k, some err)) :
    (∀ trees, readTrees growCap x ≠ .ret (trees, none)) ∧
    (∀ full, readTrees growCap { x with BestIteration := "" } = .ret (full, none) →
      readTrees growCap x
        = .ret ([], some (.wrap "error parsing best_iteration as int: " err)) ∧
      ∀ quote, (error.wrap "error parsing best_iteration as int: " err).Error quote
        = "error parsing best_iteration as int: " ++ err.Error quote) := by
  constructor
  · intro trees h
    unfold readTrees at h
    split at h
    · simp at h
    · rw [if_neg hne, hbad] at h
      simp at h
    · simp at h
    · simp at h
  · intro full hfull
    obtain ⟨s, hloop, _⟩ :=
      readTrees_unmarked growCap { x with BestIteration := "" } full rfl hfull
    refine ⟨?_, fun quote => rfl⟩
    unfold readTrees
    change (match readTreesLoop growCap x.TreeInfo x.Trees 0 { elems := [], cap := 0 } with
      | .ret (.error err) => _ | .ret (.ok trees) => _ | .panic => _ | .timeout => _) = _
    rw [hloop]
    simp only [if_neg hne, hbad]

/-- Witness of C13, amended, on the model with one good tree and
best_iteration 1.5. -/
theorem readTrees_malformed_marker_witness :
    readTrees doubleCap badMarkerModel
      = .ret ([], some (.wrap "error parsing best_iteration as int: "
                          (.syntaxError "ParseInt" "1.5"))) :=
  ((readTrees_malformed_marker doubleCap badMarkerModel 0 (.syntaxError "ParseInt" "1.5")
    (by decide) (by decide)).2 [leafPtr 0] (by decide)).1

theorem wrapInt64_nonneg (v : Int) (h0 : -(2 ^ 63) ≤ v) (h1 : v ≤ 2 ^ 63)
    (h : 0 ≤ wrapInt64 v) : wrapInt64 v = v := by
  unfold wrapInt64 at *
  omega

theorem Int64_range (s : String) : -(2 ^ 63) ≤ (Int64 s).1 ∧ (Int64 s).1 ≤ 2 ^ 63 - 1 := by
  unfold Int64 ParseInt
  split
  · simp
  · rename_i c cs _
    simp only
    split
    · simp
    · split
      · simp
      · split
        · simp
        · rename_i h1 h2
          simp only [not_and, not_le, not_lt, decide_eq_true_eq] at h1 h2
          by_cases hc : c = '-'
          · have := h2 hc
            simp only [hc, if_true]
            omega
          · have := h1 hc
            simp only [hc, if_false]
            omega

/-- Counterexample to C19: with three trees and best_iteration 3, readTrees
returns a list of four entries with a nil error; its last entry is nil, not
an assembled tree (append has grown the backing array to capacity 4). -/
theorem readTrees_beyond_length_counterexample :
    readTrees doubleCap sampleModelOver
      = .ret ([leafPtr 0, leafPtr 1, leafPtr 2, none], none) := by
  decide

theorem readTrees_marked_ret (g : Nat → Nat → Nat) (x : xgbModel)
    (kept : List (Option nodePtr)) (k : Int) (hk : Int64 x.BestIteration = (k, none))
    (h : readTrees g x = .ret (kept, none)) :
    ∃ s, readTreesLoop g x.TreeInfo x.Trees 0 { elems := [], cap := 0 } = .ret (.ok s) ∧
      0 ≤ wrapInt64 (k + 1) ∧ wrapInt64 (k + 1) ≤ (s.cap : Int) ∧
      kept = (s.elems ++ List.replicate (s.cap - s.elems.length) none).take
        (wrapInt64 (k + 1)).toNat := by
  have hne : x.BestIteration ≠ "" := by
    intro hb
    have e : (Int64 "").2 ≠ none := by decide
    rw [hb] at hk
    rw [hk] at e
    exact e rfl
  unfold readTrees at h
  split at h
  · simp at h
  · rename_i s hs
    refine ⟨s, hs, ?_⟩
    rw [if_neg hne, hk] at h
    simp only at h
    by_cases hb : 0 ≤ wrapInt64 (k + 1) ∧ wrapInt64 (k + 1) ≤ (s.cap : Int)
    · simp only [resliceTo, if_pos hb, Run.ret.injEq, Prod.mk.injEq, and_true] at h
      exact ⟨hb.1, hb.2, h.symm⟩
    · simp [resliceTo, if_neg hb] at h
  · simp at h
  · simp at h

/-- C19, amended: let full be the list of all T assembled trees of the model
(what readTrees returns for the model without its marker) and let
best_iteration parse to an integer k.  If readTrees returns a list with a nil
error, then every entry of that list at a position below T is the assembled
tree of that position; and when k < T the list is the first k+1 entries of
full, so that its length is at most T.  T is the number of raw trees. -/
theorem readTrees_kept_entries (growCap : Nat → Nat → Nat) (x : xgbModel)
    (full kept : List (Option nodePtr)) (k : Int)
    (hfull : readTrees growCap { x with BestIteration := "" } = .ret (full, none))
    (hk : Int64 x.BestIteration = (k, none))
    (hret : readTrees growCap x = .ret (kept, none)) :
    (∀ i : Nat, i < kept.length → i < full.length → kept[i]? = full[i]?) ∧
    (k < (full.length : Int) →
      kept = full.take (k + 1).toNat ∧ kept.length ≤ full.length) ∧
    full.length = x.Trees.length := by
  obtain ⟨s, hloop, hs⟩ :=
    readTrees_unmarked growCap { x with BestIteration := "" } full rfl hfull
  obtain ⟨hcap, new, hnew, hlen, _⟩ :=
    readTreesLoop_ret growCap x.TreeInfo x.Trees 0 _ s hloop (by simp)
  obtain ⟨s1, hloop1, h0, h1, hkept⟩ := readTrees_marked_ret growCap x kept k hk hret
  have hss : s1 = s := by
    have := hloop1.symm.trans hloop
    simpa using this
  subst hss
  refine ⟨?_, ?_, ?_⟩
  · intro i hi hi2
    rw [← hs] at hi2 ⊢
    rw [hkept] at hi ⊢
    rw [List.length_take] at hi
    rw [List.getElem?_take_of_lt (by omega), List.getElem?_append_left hi2]
  · intro hkT
    have hr := Int64_range x.BestIteration
    rw [hk] at hr
    have hw : wrapInt64 (k + 1) = k + 1 :=
      wrapInt64_nonneg (k + 1) (by omega) (by omega) h0
    rw [hw] at h0 hkept
    have hle : (k + 1).toNat ≤ s1.elems.length := by rw [hs]; omega
    rw [List.take_append_of_le_length hle, hs] at hkept
    refine ⟨hkept, ?_⟩
    rw [hkept, List.length_take]
    omega
  · rw [← hs, hnew]; simpa using hlen

/-- Witness of C19, amended, on the model of three trees with
best_iteration 1. -/
theorem readTrees_kept_entries_witness :
    [leafPtr 0, leafPtr 1] = [leafPtr 0, leafPtr 1, leafPtr 2].take ((1 : Int) + 1).toNat ∧
      [leafPtr 0, leafPtr 1].length ≤ [leafPtr 0, leafPtr 1, leafPtr 2].length :=
  (readTrees_kept_entries doubleCap sampleModel [leafPtr 0, leafPtr 1, leafPtr 2]
    [leafPtr 0, leafPtr 1] 1 (by decide) (by decide) (by decide)).2.1 (by decide)

/-! ## Shape of assembled trees -/

theorem parseTreeInfo_ret_mirror (xt : xgbTree) (p : nodePtr) (e : Option error)
    (h : parseTreeInfo xt = .ret (some p, e)) :
    ∃ n, p.mem = (List.range n).map (mirrorNode xt) ∧ p.idx = 0 := by
  unfold parseTreeInfo at h
  split at h
  · simp at h
  · rename_i numNodes hnum
    split at h
    · simp at h
    · rename_i hneg
      have hcast : ((numNodes.toNat : Nat) : Int) = numNodes := Int.toNat_of_nonneg (by omega)
      have hn : Int64 xt.NumNodes = ((numNodes.toNat : Int), none) := by rw [hcast]; exact hnum
      by_cases hall : ∀ j, j < numNodes.toNat → nodeOK xt numNodes.toNat j
      · have hl := parseTreeInfoLoop_ok xt numNodes.toNat numNodes.toNat 0 (by omega)
          (fun j _ hj => hall j hj)
        simp only [List.range_zero, List.map_nil, List.nil_append] at hl
        rw [hl] at h
        simp only at h
        split at h
        · simp only [Run.ret.injEq, Prod.mk.injEq, Option.some.injEq] at h
          exact ⟨numNodes.toNat, by rw [← h.1], by rw [← h.1]⟩
        · simp at h
      · push_neg at hall
        obtain ⟨j, hj, hbad⟩ := hall
        have hl := parseTreeInfoLoop_bad xt numNodes.toNat numNodes.toNat 0
          (List.replicate numNodes.toNat zeroNode) (by simp) ⟨j, Nat.zero_le _, by omega, hbad⟩
        rw [hl] at h
        simp at h

/-- C18: in the arena of a tree that parseTreeInfo returns, every node has
either no child pointer or both, so the leaf test of codegenTree (left nil or
right nil) holds exactly for the nodes without children; on such a node
codegenTree returns the terminal rendering, and a node with one child does
not occur. -/
theorem parseTreeInfo_children_paired (xt : xgbTree) (p : nodePtr) (e : Option error)
    (h : parseTreeInfo xt = .ret (some p, e)) (i : Nat) (nd : node)
    (hnd : p.mem[i]? = some nd) :
    ((nd.left = none ∧ nd.right = none) ∨ (∃ a b, nd.left = some a ∧ nd.right = some b)) ∧
    ((nd.left = none ∨ nd.right = none) ↔ (nd.left = none ∧ nd.right = none)) ∧
    ((nd.left = none ∧ nd.right = none) → ∀ (r : renderer) (fuel : Nat) (level : Int),
      codegenTree r (fuel + 1) (some ⟨p.mem, i⟩) level
        = .ret (r.executeTerminalNode ⟨p.mem, i⟩ level)) := by
  obtain ⟨n, hmem, _⟩ := parseTreeInfo_ret_mirror xt p e h
  have hm : nd = mirrorNode xt i := by
    rw [hmem] at hnd
    have hi : i < n := by
      have := (List.getElem?_eq_some.mp hnd).1
      simpa using this
    simp [hi] at hnd
    exact hnd.symm
  have hpair : (nd.left = none ∧ nd.right = none) ∨
      (∃ a b, nd.left = some a ∧ nd.right = some b) := by
    subst hm
    by_cases hl : xt.LeftChildren.getD i 0 = -1
    · exact Or.inl ⟨if_pos hl, if_pos hl⟩
    · exact Or.inr ⟨_, _, if_neg hl, if_neg hl⟩
  refine ⟨hpair, ?_, ?_⟩
  · constructor
    · intro hor
      rcases hpair with hp | ⟨a, b, ha, hb⟩
      · exact hp
      · rcases hor with ho | ho
        · rw [ha] at ho; exact absurd ho (by simp)
        · rw [hb] at ho; exact absurd ho (by simp)
    · intro hand
      exact Or.inl hand.1
  · intro hleaf r fuel level
    rw [codegenTree]
    simp only [hnd, hleaf.1, true_or, if_true]

/-- Witness of C18 at the root of the three-node tree. -/
theorem parseTreeInfo_children_paired_witness :
    (stumpRoot.left = none ∧ stumpRoot.right = none) ∨
      (∃ a b, stumpRoot.left = some a ∧ stumpRoot.right = some b) :=
  (parseTreeInfo_children_paired stumpTree ⟨stumpMem, 0⟩ none (by decide) 0 stumpRoot
    (by decide)).1

/-! ## Recursion of codegenTree -/

theorem codegenTree_terminates (r : renderer) (mem : List node) :
    ∀ (d i : Nat) (level : Int), finiteWithin mem d i = true →
      ∃ out, ∀ fuel, d ≤ fuel → codegenTree r fuel (some ⟨mem, i⟩) level = .ret out := by
  intro d
  induction d with
  | zero => intro i level h; simp [finiteWithin] at h
  | succ d ih =>
    intro i level h
    rw [finiteWithin] at h
    cases hnd : mem[i]? with
    | none => simp [hnd] at h
    | some nd =>
      simp only [hnd] at h
      cases hl : nd.left with
      | none =>
        refine ⟨r.executeTerminalNode ⟨mem, i⟩ level, fun fuel hf => ?_⟩
        obtain ⟨f, rfl⟩ : ∃ f, fuel = f + 1 := ⟨fuel - 1, by omega⟩
        rw [codegenTree]
        simp [hnd, hl]
      | some a =>
        cases hr : nd.right with
        | none =>
          refine ⟨r.executeTerminalNode ⟨mem, i⟩ level, fun fuel hf => ?_⟩
          obtain ⟨f, rfl⟩ : ∃ f, fuel = f + 1 := ⟨fuel - 1, by omega⟩
          rw [codegenTree]
          simp [hnd, hr]
        | some b =>
          simp only [hl, hr, Bool.and_eq_true] at h
          obtain ⟨oa, ha⟩ := ih a (level + 1) h.1
          obtain ⟨ob, hb⟩ := ih b (level + 1) h.2
          refine ⟨match oa with
            | (_, some err) => ("", some err)
            | (left, none) =>
              match ob with
              | (_, some err) => ("", some err)
              | (right, none) => r.executeDecisionNode ⟨mem, i⟩ level left right,
            fun fuel hf => ?_⟩
          obtain ⟨f, rfl⟩ : ∃ f, fuel = f + 1 := ⟨fuel - 1, by omega⟩
          rw [codegenTree]
          simp only [hnd, hl, hr, Option.map_some', ha f (by omega), hb f (by omega)]
          obtain ⟨ta, ea⟩ := oa
          obtain ⟨tb, eb⟩ := ob
          cases ea <;> cases eb <;> simp

/-- C16: codegenTree is the structural recursion over the tree below a node.
On a finite tree (every path from the node meets a leaf within d steps) it
returns for every start level, with any budget of at least d, and the result
does not depend on the budget.  On a node that has no left or no right child
it returns the terminal rendering of that node at the level.  On a node with
both children, when the left child generated at level+1 gives the text left
and the right child the text right, it returns the decision rendering of the
node at the level with left as left branch and right as right branch.  When
generating the left child returns an error, or the left child succeeds and
the right child returns an error, it returns the empty text and that error. -/
theorem codegenTree_structural (r : renderer) (mem : List node) :
    (∀ (d i : Nat) (level : Int), finiteWithin mem d i = true →
      ∃ out, ∀ fuel, d ≤ fuel → codegenTree r fuel (some ⟨mem, i⟩) level = .ret out) ∧
    (∀ (fuel i : Nat) (level : Int) (nd : node), mem[i]? = some nd →
      (nd.left = none ∨ nd.right = none) →
      codegenTree r (fuel + 1) (some ⟨mem, i⟩) level
        = .ret (r.executeTerminalNode ⟨mem, i⟩ level)) ∧
    (∀ (fuel i : Nat) (level : Int) (nd : node) (a b : Nat) (left right : String),
      mem[i]? = some nd → nd.left = some a → nd.right = some b →
      codegenTree r fuel (some ⟨mem, a⟩) (level + 1) = .ret (left, none) →
      codegenTree r fuel (some ⟨mem, b⟩) (level + 1) = .ret (right, none) →
      codegenTree r (fuel + 1) (some ⟨mem, i⟩) level
        = .ret (r.executeDecisionNode ⟨mem, i⟩ level left right)) ∧
    (∀ (fuel i : Nat) (level : Int) (nd : node) (a b : Nat) (text : String) (err : error),
      mem[i]? = some nd → nd.left = some a → nd.right = some b →
      codegenTree r fuel (some ⟨mem, a⟩) (level + 1) = .ret (text, some err) →
      codegenTree r (fuel + 1) (some ⟨mem, i⟩) level = .ret ("", some err)) ∧
    (∀ (fuel i : Nat) (level : Int) (nd : node) (a b : Nat) (left text : String)
      (err : error), mem[i]? = some nd → nd.left = some a → nd.right = some b →
      codegenTree r fuel (some ⟨mem, a⟩) (level + 1) = .ret (left, none) →
      codegenTree r fuel (some ⟨mem, b⟩) (level + 1) = .ret (text, some err) →
      codegenTree r (fuel + 1) (some ⟨mem, i⟩) level = .ret ("", some err)) := by
  refine ⟨codegenTree_terminates r mem, ?_, ?_, ?_, ?_⟩
  · intro fuel i level nd hnd hleaf
    rw [codegenTree]
    simp only [hnd, hleaf, if_true]
  · intro fuel i level nd a b left right hnd hl hr ha hb
    rw [codegenTree]
    simp [hnd, hl, hr, ha, hb]
  · intro fuel i level nd a b text err hnd hl hr ha
    rw [codegenTree]
    simp [hnd, hl, hr, ha]
  · intro fuel i level nd a b left text err hnd hl hr ha hb
    rw [codegenTree]
    simp [hnd, hl, hr, ha, hb]

/-- Witness of C16 at the root of the three-node tree: the text of the left
child is the left branch and the text of the right child the right branch. -/
theorem codegenTree_structural_witness :
    codegenTree labelRenderer 2 (some ⟨stumpMem, 0⟩) 0 = .ret ("node0(leaf1,leaf2)", none) :=
  (codegenTree_structural labelRenderer stumpMem).2.2.1 1 0 0 stumpRoot 1 2 "leaf1" "leaf2"
    (by decide) (by decide) (by decide) (by decide) (by decide)

/-! ## Fragments of generateSource -/

/-- C17: for a tree list of length n on which every call of codegenTree (at
level 0) succeeds, generateSource builds a fragment list of length n whose
entry at every position i < n has as Code the text codegenTree returns for
the i-th tree at level 0, as Class the Class of the root of the i-th tree and
as Name the name of position i; and this is the list it hands to
executeRoot, whose outcome and the syntax check decide the result. -/
theorem generateSource_fragments_aligned (formatSource : String → String × Option error)
    (fuel : Nat) (packageName funcName : String) (baseScore : float32) (numClasses : Int)
    (trees : List (Option nodePtr)) (r : renderer)
    (hcg : ∀ u ∈ trees, ∃ code, codegenTree r fuel u 0 = .ret (code, none)) :
    ∃ tfs, generateSourceLoop r fuel funcName trees 0 [] = .ret (.ok tfs) ∧
      tfs.length = trees.length ∧
      (∀ i : Nat, i < trees.length → ∃ p nd code, trees[i]? = some (some p) ∧
        p.mem[p.idx]? = some nd ∧ codegenTree r fuel (some p) 0 = .ret (code, none) ∧
        tfs[i]? = some { Code := code, Name := fragmentName funcName i,
                         Class := nd.data.Class }) ∧
      generateSource formatSource fuel packageName funcName baseScore numClasses trees r
        = (match r.executeRoot packageName funcName baseScore numClasses tfs with
           | (_, some err) => .ret ("", some err)
           | (code, none) =>
             match formatSource code with
             | (_, some err) => .ret ("", some (.wrap "error formatting code: " err))
             | (_, none) => .ret (code, none)) := by
  obtain ⟨new, h1, h2, h3⟩ := generateSourceLoop_ok r fuel funcName trees 0 [] hcg
  simp only [List.nil_append] at h1
  refine ⟨new, h1, h2, ?_, ?_⟩
  · intro i hi
    have hti : trees[i]? = some trees[i] := List.getElem?_eq_getElem hi
    obtain ⟨c0, hc0⟩ := hcg trees[i] (List.getElem_mem _)
    obtain ⟨p, nd, hp, hnd⟩ := codegenTree_ret_deref r fuel trees[i] 0 _ hc0
    rw [hp] at hti
    obtain ⟨code, hc, htf⟩ := h3 i p nd hti hnd
    refine ⟨p, nd, code, hti, hnd, hc, ?_⟩
    rw [htf]
    simp [fragmentName]
  · unfold generateSource
    rw [h1]

/-- Witness of C17 on a list of two trees. -/
theorem generateSource_fragments_aligned_witness :
    ∃ tfs, generateSourceLoop labelRenderer 2 "f" [some ⟨stumpMem, 0⟩, leafPtr 4] 0 []
        = .ret (.ok tfs) ∧
      tfs.length = [some ⟨stumpMem, 0⟩, leafPtr 4].length ∧
      (∀ i : Nat, i < [some ⟨stumpMem, 0⟩, leafPtr 4].length → ∃ p nd code,
        [some ⟨stumpMem, 0⟩, leafPtr 4][i]? = some (some p) ∧
        p.mem[p.idx]? = some nd ∧
        codegenTree labelRenderer 2 (some p) 0 = .ret (code, none) ∧
        tfs[i]? = some { Code := code, Name := fragmentName "f" i,
                         Class := nd.data.Class }) ∧
      generateSource formatAccept 2 "p" "f" ⟨0⟩ 5 [some ⟨stumpMem, 0⟩, leafPtr 4] labelRenderer
        = (match labelRenderer.executeRoot "p" "f" ⟨0⟩ 5 tfs with
           | (_, some err) => .ret ("", some err)
           | (code, none) =>
             match formatAccept code with
             | (_, some err) => .ret ("", some (.wrap "error formatting code: " err))
             | (_, none) => .ret (code, none)) :=
  generateSource_fragments_aligned formatAccept 2 "p" "f" ⟨0⟩ 5
    [some ⟨stumpMem, 0⟩, leafPtr 4] labelRenderer
    (fun u hu => by
      simp only [List.mem_cons, List.mem_singleton, List.not_mem_nil, or_false] at hu
      rcases hu with rfl | rfl
      · exact ⟨"node0(leaf1,leaf2)", by decide⟩
      · exact ⟨"leaf0", by decide⟩)

/-! ## Leaf determinism -/

theorem codegenTree_reaches_leaf (r : renderer) (less : float64 → float64 → Bool)
    (sem : String → (Int → Option float64) → Option float64) (hrule : nodeRule r less sem)
    (mem : List node)
    (hshape : ∀ (i : Nat) (nd : node), mem[i]? = some nd → (nd.left = none ↔ nd.right = none))
    (fv : Int → Option float64) :
    ∀ (fuel i : Nat) (level : Int) (code : String),
      codegenTree r fuel (some ⟨mem, i⟩) level = .ret (code, none) →
      ∃ leaf, leafReached less fv mem fuel i = some leaf ∧
        leaf.left = none ∧ leaf.right = none ∧ sem code fv = some leaf.data.SplitCondition := by
  intro fuel
  induction fuel with
  | zero => intro i level code h; simp [codegenTree] at h
  | succ fuel ih =>
    intro i level code h
    rw [codegenTree] at h
    cases hnd : mem[i]? with
    | none => simp [hnd] at h
    | some nd =>
      simp only [hnd] at h
      rw [leafReached]
      simp only [hnd]
      cases hl : nd.left with
      | none =>
        have hr : nd.right = none := (hshape i nd hnd).mp hl
        simp only [hl, true_or, if_true, Run.ret.injEq] at h
        exact ⟨nd, by simp [hl, hr], hl, hr, hrule.leaf ⟨mem, i⟩ level nd code hnd h fv⟩
      | some a =>
        cases hr : nd.right with
        | none =>
          have := (hshape i nd hnd).mpr hr
          rw [hl] at this
          exact absurd this (by simp)
        | some b =>
          simp only [hl, hr, Option.map_some', false_or, if_false] at h
          have hfalse : ¬ ((some a : Option Nat) = none ∨ (some b : Option Nat) = none) := by simp
          rw [if_neg hfalse] at h
          cases ha : codegenTree r fuel (some ⟨mem, a⟩) (level + 1) with
          | panic => simp [ha] at h
          | timeout => simp [ha] at h
          | ret oa =>
            obtain ⟨left, ea⟩ := oa
            cases ea with
            | some err => simp [ha] at h
            | none =>
              simp only [ha] at h
              cases hb : codegenTree r fuel (some ⟨mem, b⟩) (level + 1) with
              | panic => simp [hb] at h
              | timeout => simp [hb] at h
              | ret ob =>
                obtain ⟨right, eb⟩ := ob
                cases eb with
                | some err => simp [hb] at h
                | none =>
                  simp only [hb, Run.ret.injEq] at h
                  obtain ⟨la, ha1, ha2, ha3, ha4⟩ := ih a (level + 1) left ha
                  obtain ⟨lb, hb1, hb2, hb3, hb4⟩ := ih b (level + 1) right hb
                  have hsem := hrule.decision ⟨mem, i⟩ level nd left right code hnd h fv
                    _ _ ha4 hb4
                  by_cases hg : goesLeft less nd.data fv = true
                  · refine ⟨la, by simp [hg, ha1], ha2, ha3, ?_⟩
                    rw [hsem, if_pos hg]
                  · refine ⟨lb, by simp [hg, hb1], hb2, hb3, ?_⟩
                    rw [hsem, if_neg hg]

/-! ## The sample emitter meets the rules -/

theorem vmRun_append (less : float64 → float64 → Bool) (fv : Int → Option float64) :
    ∀ (a b : List Char) (st : vmState),
      vmRun less fv (a ++ b) st = (vmRun less fv a st).bind (vmRun less fv b) := by
  intro a
  induction a with
  | nil => intro b st; rfl
  | cons c cs ih =>
    intro b st
    simp only [List.cons_append, vmRun]
    cases vmStep less fv st c with
    | none => rfl
    | some st1 => exact ih b st1

theorem vmStep_frame (less : float64 → float64 → Bool) (fv : Int → Option float64)
    (base : List float64) (st st1 : vmState) (c : Char)
    (h : vmStep less fv st c = some st1) :
    vmStep less fv { st with stack := st.stack ++ base } c
      = some { st1 with stack := st1.stack ++ base } := by
  unfold vmStep at h ⊢
  split_ifs at h ⊢ with h1 h2 h3 h4 h5 h6
  · simp only [Option.some.injEq] at h; subst h; rfl
  · simp only [Option.some.injEq] at h; subst h; rfl
  · simp only [Option.some.injEq] at h; subst h; rfl
  · simp only [Option.some.injEq] at h; subst h; rfl
  · simp only [Option.some.injEq] at h; subst h; rfl
  · obtain ⟨num, thr, feat, stack⟩ := st
    cases thr with
    | none => simp at h
    | some t =>
      cases feat with
      | none => simp at h
      | some f =>
        match stack, h with
        | [], h => simp at h
        | [_], h => simp at h
        | vr :: vl :: rest, h =>
          simp only [Option.some.injEq] at h
          subst h
          rfl

theorem vmRun_frame (less : float64 → float64 → Bool) (fv : Int → Option float64)
    (base : List float64) :
    ∀ (cs : List Char) (st st1 : vmState), vmRun less fv cs st = some st1 →
      vmRun less fv cs { st with stack := st.stack ++ base }
        = some { st1 with stack := st1.stack ++ base } := by
  intro cs
  induction cs with
  | nil =>
    intro st st1 h
    simp only [vmRun, Option.some.injEq] at h
    subst h
    rfl
  | cons c cs ih =>
    intro st st1 h
    simp only [vmRun] at h ⊢
    cases hs : vmStep less fv st c with
    | none => simp [hs] at h
    | some st2 =>
      rw [hs] at h
      rw [vmStep_frame less fv base st st2 c hs]
      exact ih st2 st1 h

theorem toDigitsCore_digits (fuel : Nat) :
    ∀ (n : Nat) (ds : List Char), (∀ c ∈ ds, 48 ≤ c.toNat ∧ c.toNat ≤ 57) →
      ∀ c ∈ Nat.toDigitsCore 10 fuel n ds, 48 ≤ c.toNat ∧ c.toNat ≤ 57 := by
  induction fuel with
  | zero => intro n ds h; simpa [Nat.toDigitsCore] using h
  | succ fuel ih =>
    intro n ds h
    have hd := digitChar_toNat (n % 10) (Nat.mod_lt _ (by decide))
    have hcons : ∀ c ∈ Nat.digitChar (n % 10) :: ds, 48 ≤ c.toNat ∧ c.toNat ≤ 57 := by
      intro c hc
      rcases List.mem_cons.mp hc with rfl | hc
      · exact ⟨hd.1, hd.2.1⟩
      · exact h c hc
    simp only [Nat.toDigitsCore]
    by_cases hz : n / 10 = 0
    · simpa [hz] using hcons
    · simp only [hz, if_false]
      exact ih (n / 10) _ hcons

theorem vmRun_digits (less : float64 → float64 → Bool) (fv : Int → Option float64) :
    ∀ (cs : List Char) (st : vmState), (∀ c ∈ cs, 48 ≤ c.toNat ∧ c.toNat ≤ 57) →
      vmRun less fv cs st
        = some { st with num := cs.foldl (fun acc c => acc * 10 + (c.toNat - 48)) st.num } := by
  intro cs
  induction cs with
  | nil => intro st _; rfl
  | cons c cs ih =>
    intro st h
    have hc := h c (List.mem_cons_self _ _)
    have hstep : vmStep less fv st c = some { st with num := st.num * 10 + (c.toNat - 48) } := by
      unfold vmStep
      rw [if_pos hc]
    simp only [vmRun, hstep, List.foldl_cons]
    exact ih _ (fun d hd => h d (List.mem_cons_of_mem _ hd))

theorem vmRun_repr (less : float64 → float64 → Bool) (fv : Int → Option float64) (n : Nat)
    (st : vmState) (h0 : st.num = 0) :
    vmRun less fv (Nat.repr n).data st = some { st with num := n } := by
  have hdig : ∀ c ∈ (Nat.repr n).data, 48 ≤ c.toNat ∧ c.toNat ≤ 57 :=
    toDigitsCore_digits (n + 1) n [] (by simp)
  rw [vmRun_digits less fv _ st hdig, h0]
  have := decimalValue_repr n
  unfold decimalValue at this
  rw [this]

theorem vmEval_run (less : float64 → float64 → Bool) (text : String)
    (fv : Int → Option float64) (v : float64) (h : vmEval less text fv = some v) :
    vmRun less fv text.data vmInit = some { num := 0, thr := none, feat := none, stack := [v] } := by
  unfold vmEval at h
  split at h
  · rename_i w hw
    simp only [Option.some.injEq] at h
    rw [hw, h]
  · simp at h

theorem vmEval_of_run (less : float64 → float64 → Bool) (text : String)
    (fv : Int → Option float64) (v : float64)
    (h : vmRun less fv text.data vmInit
          = some { num := 0, thr := none, feat := none, stack := [v] }) :
    vmEval less text fv = some v := by
  unfold vmEval
  rw [h]

theorem vmRun_leaf_text (less : float64 → float64 → Bool) (fv : Int → Option float64)
    (n : Nat) (st : vmState) (h0 : st.num = 0) :
    vmRun less fv (Nat.repr n ++ "L").data st
      = some { st with num := 0, stack := ⟨n⟩ :: st.stack } := by
  rw [String.data_append, vmRun_append, vmRun_repr less fv n st h0]
  rfl

theorem vmRun_select_text (less : float64 → float64 → Bool) (fv : Int → Option float64)
    (d : nodeData) (vl vr : float64) (rest : List float64) :
    vmRun less fv (Nat.repr d.SplitCondition.bits ++ "T" ++ Nat.repr d.SplitIndex.natAbs ++
        (if d.SplitIndex < 0 then "G" else "F") ++ (if d.DefaultLeft != 0 then "Y" else "N")).data
        { num := 0, thr := none, feat := none, stack := vr :: vl :: rest }
      = some { num := 0, thr := none, feat := none,
               stack := (if goesLeft less d fv then vl else vr) :: rest } := by
  simp only [String.data_append, vmRun_append]
  rw [vmRun_repr less fv _ _ rfl]
  have hT : vmRun less fv ("T" : String).data
      { num := d.SplitCondition.bits, thr := none, feat := none, stack := vr :: vl :: rest }
      = some { num := 0, thr := some d.SplitCondition.bits, feat := none,
               stack := vr :: vl :: rest } := rfl
  simp only [Option.bind, hT]
  rw [vmRun_repr less fv _ _ rfl]
  have hidx : (if d.SplitIndex < 0 then -((d.SplitIndex.natAbs : Nat) : Int)
      else ((d.SplitIndex.natAbs : Nat) : Int)) = d.SplitIndex := by
    split_ifs <;> omega
  have hF : vmRun less fv (if d.SplitIndex < 0 then "G" else "F" : String).data
      { num := d.SplitIndex.natAbs, thr := some d.SplitCondition.bits, feat := none,
        stack := vr :: vl :: rest }
      = some { num := 0, thr := some d.SplitCondition.bits, feat := some d.SplitIndex,
               stack := vr :: vl :: rest } := by
    by_cases hneg : d.SplitIndex < 0
    · rw [if_pos hneg] at hidx
      rw [if_pos hneg]
      show some _ = some _
      rw [hidx]
    · rw [if_neg hneg] at hidx
      rw [if_neg hneg]
      show some _ = some _
      rw [hidx]
  simp only [hF]
  unfold goesLeft
  by_cases hdl : (d.DefaultLeft != 0) = true
  · rw [if_pos hdl]
    show some _ = some _
    cases hfv : fv d.SplitIndex <;> simp [hfv, hdl]
  · rw [if_neg hdl]
    show some _ = some _
    cases hfv : fv d.SplitIndex <;> simp [hfv, hdl]

/-- The texts of the sample emitter meet the per-node rule under the stack
machine. -/
theorem vmRenderer_nodeRule (less : float64 → float64 → Bool) :
    nodeRule vmRenderer less (vmEval less) := by
  constructor
  · intro p level nd code hnd hcode fv
    simp only [vmRenderer, hnd, Prod.mk.injEq, and_true] at hcode
    subst hcode
    exact vmEval_of_run less _ fv _ (vmRun_leaf_text less fv _ vmInit rfl)
  · intro p level nd left right code hnd hcode fv vl vr hl hr
    simp only [vmRenderer, hnd, Prod.mk.injEq, and_true] at hcode
    subst hcode
    apply vmEval_of_run
    have h1 := vmEval_run less left fv vl hl
    have h2 := vmRun_frame less fv [vl] right.data vmInit _ (vmEval_run less right fv vr hr)
    have h3 := vmRun_select_text less fv nd.data vl vr []
    simp only [String.data_append, vmRun_append] at h3 ⊢
    rw [h1]
    simp only [Option.bind]
    have h2' : vmRun less fv right.data { num := 0, thr := none, feat := none, stack := [vl] }
        = some { num := 0, thr := none, feat := none, stack := [vr, vl] } := h2
    rw [h2']
    exact h3

theorem stumpMem_shape (i : Nat) (nd : node) (h : stumpMem[i]? = some nd) :
    nd.left = none ↔ nd.right = none := by
  match i, h with
  | 0, h => simp [stumpMem, stumpRoot] at h; subst h; simp
  | 1, h => simp [stumpMem] at h; subst h; simp
  | 2, h => simp [stumpMem] at h; subst h; simp
  | _ + 3, h => simp [stumpMem] at h

/-- C14: let the renderer meet the per-node rule of the spec (the text of a
leaf evaluates to its SplitCondition; the text of a decision node evaluates
to the value of its left branch when the feature at SplitIndex is present and
less than SplitCondition, or missing with DefaultLeft set, and to the value
of its right branch otherwise).  Then for every tree whose nodes have both
children or none, as assembled trees do, for every text that codegenTree
returns for it and every feature vector, the value of the text is the
SplitCondition of one leaf: the leaf reached from the root by going left or
right at each node with children by that same rule. -/
theorem codegenTree_leaf_determinism (r : renderer) (less : float64 → float64 → Bool)
    (sem : String → (Int → Option float64) → Option float64) (hrule : nodeRule r less sem)
    (mem : List node)
    (hshape : ∀ (i : Nat) (nd : node), mem[i]? = some nd → (nd.left = none ↔ nd.right = none))
    (fuel i : Nat) (level : Int) (code : String)
    (h : codegenTree r fuel (some ⟨mem, i⟩) level = .ret (code, none))
    (fv : Int → Option float64) :
    ∃ leaf, leafReached less fv mem fuel i = some leaf ∧
      leaf.left = none ∧ leaf.right = none ∧ sem code fv = some leaf.data.SplitCondition :=
  codegenTree_reaches_leaf r less sem hrule mem hshape fv fuel i level code h

/-- Witness of C14 on the three-node tree with the sample emitter: feature 2
is 9, below the threshold 10, and the text evaluates to the left leaf. -/
theorem codegenTree_leaf_determinism_witness :
    ∃ leaf, leafReached lessBits sampleFeatures stumpMem 2 0 = some leaf ∧
      leaf.left = none ∧ leaf.right = none ∧
      vmEval lessBits "1L2L10T2FY" sampleFeatures = some leaf.data.SplitCondition :=
  codegenTree_leaf_determinism vmRenderer lessBits (vmEval lessBits)
    (vmRenderer_nodeRule lessBits) stumpMem stumpMem_shape 2 0 0 "1L2L10T2FY" (by decide)
    sampleFeatures

/-! ## Aggregation -/

theorem generateSourceLoop_aligned (r : renderer) (fuel : Nat) (funcName : String) :
    ∀ (trees : List (Option nodePtr)) (i : Nat) (acc tfs : List treeFunction),
      generateSourceLoop r fuel funcName trees i acc = .ret (.ok tfs) →
      ∃ new, tfs = acc ++ new ∧
        List.Forall₂ (fun t tf => codegenTree r fuel t 0 = .ret (tf.Code, none) ∧
          rootClass t = some tf.Class) trees new := by
  intro trees
  induction trees with
  | nil =>
    intro i acc tfs h
    simp only [generateSourceLoop, Run.ret.injEq, Except.ok.injEq] at h
    exact ⟨[], by simp [h], List.Forall₂.nil⟩
  | cons t rest ih =>
    intro i acc tfs h
    rw [generateSourceLoop] at h
    split at h
    · simp at h
    · rename_i code hcode
      split at h
      · simp at h
      · split at h
        · simp at h
        · rename_i p nd hnd
          obtain ⟨new, h1, h2⟩ := ih (i + 1) _ tfs h
          refine ⟨{ Code := code, Name := "tree" ++ funcName ++ "_" ++ Nat.repr i,
                    Class := nd.data.Class } :: new, by rw [h1]; simp, ?_⟩
          refine List.Forall₂.cons ⟨hcode, ?_⟩ h2
          simp [rootClass, hnd]
    · simp at h
    · simp at h

theorem forall₂_values {α β γ : Type} (R : α → β → Prop) (Q : α → γ → Prop)
    (P : β → γ → Prop) (hP : ∀ a b c, R a b → Q a c → P b c) :
    ∀ (as : List α) (bs : List β) (cs : List γ),
      List.Forall₂ R as bs → List.Forall₂ Q as cs → List.Forall₂ P bs cs := by
  intro as
  induction as with
  | nil =>
    intro bs cs hR hQ
    cases hR
    cases hQ
    exact List.Forall₂.nil
  | cons a as ih =>
    intro bs cs hR hQ
    cases hR with
    | cons hab hrest =>
      cases hQ with
      | cons hac hrest2 =>
        exact List.Forall₂.cons (hP _ _ _ hab hac) (ih _ _ hrest hrest2)

theorem forall₂_map_right {α β γ : Type} (R : α → β → Prop) (f : β → γ) :
    ∀ (as : List α) (bs : List β), List.Forall₂ R as bs →
      List.Forall₂ (fun a c => ∃ b, R a b ∧ f b = c) as (bs.map f) := by
  intro as bs h
  induction h with
  | nil => exact List.Forall₂.nil
  | cons hab _ ih => exact List.Forall₂.cons ⟨_, hab, rfl⟩ ih

theorem scoreVector_getElem? {S : Type} (ops : scoreOps S) (contribs : List (Int × float64))
    (base : float32) (numClasses : Int) (c : Nat) (hc : (c : Int) < numClasses) :
    (scoreVector ops contribs base numClasses)[c]? = some (slotScore ops contribs base (c : Int)) := by
  unfold scoreVector
  have : c < numClasses.toNat := by omega
  rw [List.getElem?_map, List.getElem?_range this]
  rfl

/-- C15: let the renderer meet the aggregation rule of the spec for
executeRoot.  When generateSource returns a text with a nil error, then for
every feature vector for which the fragment of every tree evaluates (vals
lists these contributions in the order of the trees), the emitted function
returns a score vector with one slot for each class in 0..C-1, and the score
in slot c is the base score added to the sum, in order, of the contributions
of exactly the trees whose root Class is c. -/
theorem generateSource_aggregation {S : Type} (ops : scoreOps S)
    (sem : String → (Int → Option float64) → Option float64)
    (semRoot : String → (Int → Option float64) → Option (List S))
    (formatSource : String → String × Option error) (fuel : Nat)
    (packageName funcName : String) (baseScore : float32) (numClasses : Int)
    (trees : List (Option nodePtr)) (r : renderer)
    (hroot : wrapperRule r ops sem semRoot) (code : String)
    (h : generateSource formatSource fuel packageName funcName baseScore numClasses trees r
          = .ret (code, none))
    (fv : Int → Option float64) (vals : List float64)
    (hvals : List.Forall₂ (fun t v => ∃ text, codegenTree r fuel t 0 = .ret (text, none) ∧
      sem text fv = some v) trees vals) :
    ∃ classes scores, List.Forall₂ (fun t c => rootClass t = some c) trees classes ∧
      semRoot code fv = some scores ∧ scores.length = numClasses.toNat ∧
      ∀ c : Nat, (c : Int) < numClasses →
        scores[c]? = some (slotScore ops (classes.zip vals) baseScore (c : Int)) := by
  obtain ⟨tfs, formatted, hloop, hexec, _⟩ :=
    generateSource_ret_ok formatSource fuel packageName funcName baseScore
      numClasses trees r code h
  obtain ⟨new, hnew, hal⟩ := generateSourceLoop_aligned r fuel funcName trees 0 [] tfs hloop
  simp only [List.nil_append] at hnew
  subst hnew
  have hsem : List.Forall₂ (fun tf v => sem tf.Code fv = some v) tfs vals := by
    refine forall₂_values _ _ _ ?_ trees tfs vals hal hvals
    rintro t tf v ⟨h1, _⟩ ⟨text, h2, h3⟩
    rw [h1] at h2
    simp only [Run.ret.injEq, Prod.mk.injEq, and_true] at h2
    rw [h2]
    exact h3
  have hcls : List.Forall₂ (fun t c => rootClass t = some c) trees
      (tfs.map (fun tf => tf.Class)) := by
    have := forall₂_map_right _ (fun tf : treeFunction => tf.Class) trees tfs hal
    refine List.Forall₂.imp ?_ this
    rintro t c ⟨tf, ⟨_, h2⟩, h3⟩
    rw [h2]
    exact congrArg some h3
  refine ⟨tfs.map (fun tf => tf.Class), _, hcls,
    hroot.root packageName funcName baseScore numClasses tfs code hexec fv vals hsem, ?_, ?_⟩
  · unfold scoreVector
    rw [List.length_map, List.length_range]
  · intro c hc
    exact scoreVector_getElem? ops _ baseScore numClasses c hc

theorem wrapRun_append (less : float64 → float64 → Bool) (fv : Int → Option float64) :
    ∀ (a b : List Char) (ws : wrapState),
      wrapRun less fv (a ++ b) ws = (wrapRun less fv a ws).bind (wrapRun less fv b) := by
  intro a
  induction a with
  | nil => intro b ws; rfl
  | cons c cs ih =>
    intro b ws
    simp only [List.cons_append, wrapRun]
    cases wrapStep less fv ws c with
    | none => rfl
    | some ws1 => exact ih b ws1

theorem wrapRun_of_vmRun (less : float64 → float64 → Bool) (fv : Int → Option float64)
    (contribs : List (Int × float64)) (base : Option float32) (count : Option Nat) :
    ∀ (cs : List Char) (st st1 : vmState), vmRun less fv cs st = some st1 →
      wrapRun less fv cs { frag := st, contribs := contribs, base := base, count := count }
        = some { frag := st1, contribs := contribs, base := base, count := count } := by
  intro cs
  induction cs with
  | nil =>
    intro st st1 h
    simp only [vmRun, Option.some.injEq] at h
    subst h
    rfl
  | cons c cs ih =>
    intro st st1 h
    simp only [vmRun] at h
    cases hs : vmStep less fv st c with
    | none => simp [hs] at h
    | some st2 =>
      rw [hs] at h
      simp only [wrapRun, wrapStep, hs]
      exact ih st2 st1 h

theorem wrapRun_block (less : float64 → float64 → Bool) (fv : Int → Option float64)
    (tf : treeFunction) (v : float64) (contribs : List (Int × float64))
    (h : vmEval less tf.Code fv = some v) :
    wrapRun less fv
        (tf.Code ++ Nat.repr tf.Class.natAbs ++ (if tf.Class < 0 then "K" else "C")).data
        { frag := vmInit, contribs := contribs, base := none, count := none }
      = some { frag := vmInit, contribs := contribs ++ [(tf.Class, v)], base := none,
               count := none } := by
  simp only [String.data_append, wrapRun_append]
  rw [wrapRun_of_vmRun less fv contribs none none _ _ _ (vmEval_run less tf.Code fv v h)]
  simp only [Option.bind]
  rw [wrapRun_of_vmRun less fv contribs none none _ _ _ (vmRun_repr less fv _ _ rfl)]
  simp only [Option.bind]
  by_cases hneg : tf.Class < 0
  · rw [if_pos hneg]
    have hK : wrapRun less fv ("K" : String).data
        { frag := { num := tf.Class.natAbs, thr := none, feat := none, stack := [v] },
          contribs := contribs, base := none, count := none }
        = some { frag := vmInit,
                 contribs := contribs ++ [(-((tf.Class.natAbs : Nat) : Int), v)],
                 base := none, count := none } := rfl
    have : -((tf.Class.natAbs : Nat) : Int) = tf.Class := by omega
    rw [this] at hK
    exact hK
  · rw [if_neg hneg]
    have hC : wrapRun less fv ("C" : String).data
        { frag := { num := tf.Class.natAbs, thr := none, feat := none, stack := [v] },
          contribs := contribs, base := none, count := none }
        = some { frag := vmInit,
                 contribs := contribs ++ [(((tf.Class.natAbs : Nat) : Int), v)],
                 base := none, count := none } := rfl
    have : ((tf.Class.natAbs : Nat) : Int) = tf.Class := by omega
    rw [this] at hC
    exact hC

theorem wrapRun_blocks (less : float64 → float64 → Bool) (fv : Int → Option float64) :
    ∀ (tfs : List treeFunction) (vals : List float64),
      List.Forall₂ (fun tf v => vmEval less tf.Code fv = some v) tfs vals →
      ∀ contribs : List (Int × float64),
        wrapRun less fv (vmBlocks tfs).data
            { frag := vmInit, contribs := contribs, base := none, count := none }
          = some { frag := vmInit,
                   contribs := contribs ++ (tfs.map (fun tf => tf.Class)).zip vals,
                   base := none, count := none } := by
  intro tfs vals h
  induction h with
  | nil => intro contribs; simp [vmBlocks, wrapRun]
  | cons hv _ ih =>
    intro contribs
    rw [vmBlocks, String.data_append, wrapRun_append, wrapRun_block less fv _ _ contribs hv]
    simp only [Option.bind]
    rw [ih]
    simp

/-- The wrapper text of the sample emitter meets the aggregation rule under
the stack machine. -/
theorem vmRenderer_wrapperRule {S : Type} (ops : scoreOps S)
    (less : float64 → float64 → Bool) :
    wrapperRule vmRenderer ops (vmEval less) (wrapEval ops less) := by
  constructor
  intro packageName funcName baseScore numClasses tfs code hcode fv vals hvals
  simp only [vmRenderer] at hcode
  split_ifs at hcode with hneg
  · simp at hcode
  simp only [Prod.mk.injEq, and_true] at hcode
  subst hcode
  unfold wrapEval
  simp only [String.data_append, wrapRun_append]
  rw [wrapRun_blocks less fv tfs vals hvals []]
  simp only [Option.bind, List.nil_append]
  rw [wrapRun_of_vmRun less fv _ none none _ _ _ (vmRun_repr less fv baseScore.bits vmInit rfl)]
  have hB : wrapRun less fv ("B" : String).data
      { frag := { vmInit with num := baseScore.bits },
        contribs := (tfs.map (fun tf => tf.Class)).zip vals, base := none, count := none }
      = some { frag := vmInit, contribs := (tfs.map (fun tf => tf.Class)).zip vals,
               base := some baseScore, count := none } := rfl
  simp only [hB]
  rw [wrapRun_of_vmRun less fv _ (some baseScore) none _ _ _
    (vmRun_repr less fv numClasses.toNat vmInit rfl)]
  have hR : wrapRun less fv ("R" : String).data
      { frag := { vmInit with num := numClasses.toNat },
        contribs := (tfs.map (fun tf => tf.Class)).zip vals, base := some baseScore,
        count := none }
      = some { frag := vmInit, contribs := (tfs.map (fun tf => tf.Class)).zip vals,
               base := some baseScore, count := some numClasses.toNat } := rfl
  simp only [hR, vmInit]
  congr 1

/-- Witness of C15 with the sample emitter: two classes, base score 5, four
trees of classes 0, 1, 0 and 7 whose fragments evaluate to 1, 7, 7 and 7. -/
theorem generateSource_aggregation_witness :
    ∃ classes scores, List.Forall₂ (fun t c => rootClass t = some c) sampleTrees classes ∧
      wrapEval listOps lessBits "1L2L10T2FY0C7L1C7L0C7L7C5B2R" sampleFeatures = some scores ∧
      scores.length = (2 : Int).toNat ∧
      ∀ c : Nat, (c : Int) < 2 →
        scores[c]? = some (slotScore listOps (classes.zip [⟨1⟩, ⟨7⟩, ⟨7⟩, ⟨7⟩]) ⟨5⟩ (c : Int)) :=
  generateSource_aggregation listOps (vmEval lessBits) (wrapEval listOps lessBits) formatAccept
    2 "p" "f" ⟨5⟩ 2 sampleTrees vmRenderer (vmRenderer_wrapperRule listOps lessBits)
    "1L2L10T2FY0C7L1C7L0C7L7C5B2R" (by decide) sampleFeatures [⟨1⟩, ⟨7⟩, ⟨7⟩, ⟨7⟩]
    (List.Forall₂.cons ⟨"1L2L10T2FY", by decide, by decide⟩
      (List.Forall₂.cons ⟨"7L", by decide, by decide⟩
        (List.Forall₂.cons ⟨"7L", by decide, by decide⟩
          (List.Forall₂.cons ⟨"7L", by decide, by decide⟩ List.Forall₂.nil))))

end gen
